import Mathlib

/-!
# Verification of the ECS152A sender implementations

Shallow embedding of the four UDP file-transfer senders of this repository
(stop-and-wait, fixed sliding window, TCP Reno, TCP Vegas) together with
theorems about their congestion-control bookkeeping.

Modelling conventions:
* Python floats (wall-clock instants, `cwnd`, RTT values) are embedded as
  rationals; every comparison and update in the source is exact arithmetic
  on those values, so the control flow is preserved verbatim.
* The window `deque` is a `List`, head at the front; `popleft` is dropping
  the head, `append` is appending at the tail.
* Each pass of the main loop that reads `time.time()` is given one
  timestamp `now`; distinct reads in distinct passes get distinct
  parameters.
* Python expressions that would raise (`abs(x - None)`, division by zero)
  are embedded in `Option`, with `none` for the raising executions.
-/

namespace Proto

/-- Packet size constant of all four senders (bytes on the wire). -/
def PACKET_SIZE : Nat := 1024

/-- Size of the sequence-id header (bytes). -/
def SEQ_ID_SIZE : Nat := 4

/-- Payload bytes per segment: `PACKET_SIZE - SEQ_ID_SIZE = 1020`. -/
def MESSAGE_SIZE : Nat := PACKET_SIZE - SEQ_ID_SIZE

/-- Python `n.to_bytes(4, byteorder="big", signed=True)`: the four
two's-complement big-endian bytes of `n` (defined for `-2^31 ≤ n < 2^31`;
`Int.emod` is already the two's-complement representative). -/
def toBytesBE4 (n : Int) : List Nat :=
  let m := (n % (2 ^ 32 : Int)).toNat
  [m / 2 ^ 24 % 256, m / 2 ^ 16 % 256, m / 2 ^ 8 % 256, m % 256]

/-- ASCII bytes of the literal `==FINACK==` appended to the FINACK packet. -/
def finackBytes : List Nat := [61, 61, 70, 73, 78, 65, 67, 75, 61, 61]

/-- Python `int()` on a rational: truncation toward zero. -/
def pyInt (q : ℚ) : Int := if q < 0 then -⌊-q⌋ else ⌊q⌋

/-!
## Cumulative-ACK removal

All window-keeping senders run the loop
`while packets and packets[0][0] < ack_id: packets.popleft()`.
On a list that removes the longest head run with `seq < ack`:
`takeWhile` is what is popped, `dropWhile` is what remains.
-/

/-- Window segments removed by the cumulative-ACK loop. -/
def ackPopped (seq : α → Int) (ack : Int) (w : List α) : List α :=
  w.takeWhile (fun s => decide (seq s < ack))

/-- Window segments remaining after the cumulative-ACK loop. -/
def ackKept (seq : α → Int) (ack : Int) (w : List α) : List α :=
  w.dropWhile (fun s => decide (seq s < ack))

/-- Windows are kept in strictly increasing `seq_id` order. -/
def SeqSorted (seq : α → Int) (w : List α) : Prop :=
  w.Pairwise (fun a b => seq a < seq b)

instance (seq : α → Int) (w : List α) : Decidable (SeqSorted seq w) := by
  unfold SeqSorted
  infer_instance

/-!
## Reno sender (`sender_reno.py`)
-/

namespace Reno

/-- Smoothing constant `ALPHA = 0.85` of the Reno RTT estimator. -/
def ALPHA : ℚ := 85 / 100

/-- The Reno sender states (`class State(enum.Enum)`). -/
inductive State where
  | TIMEOUT
  | SLOW_START
  | CONGESTION_AVOIDANCE
  | SENDING_EOF
deriving DecidableEq, Repr

/-- The `.value` of each enum member. -/
def State.value : State → Int
  | .TIMEOUT => -1
  | .SLOW_START => 1
  | .CONGESTION_AVOIDANCE => 2
  | .SENDING_EOF => 3

/-- One entry of the `packets` deque:
`(seq_id, time_sent, packet, in_transit)`; the stored packet is
`toBytesBE4 seq_id ++ payload`, so only the payload is kept here. -/
structure Segment where
  seq_id : Int
  send_time : Option ℚ
  payload : List Nat
  in_transit : Bool
deriving DecidableEq, Repr

/-- The module-level mutable state of `sender_reno.py`. -/
structure St where
  seq_id_global : Int
  curr_state : State
  cwnd : ℚ
  ssthresh : ℚ
  duplicate_acks : Nat
  last_ack : Int
  timeout : ℚ
  estimated_RTT : ℚ
  packets_in_transit : Int
  packets : List Segment
  total_bytes : Nat
  packet_delays : List ℚ
deriving DecidableEq, Repr

/-- `timeout_reset()` (lines 45-50): enter TIMEOUT, zero the in-transit
count, set `ssthresh = max(cwnd // 2, 1)` and then `cwnd = 1`. -/
def timeout_reset (st : St) : St :=
  { st with
    curr_state := State.TIMEOUT
    packets_in_transit := 0
    ssthresh := max (⌊st.cwnd / 2⌋ : ℚ) 1
    cwnd := 1 }

/-- The flag-clearing loop of the triple-duplicate-ACK branch
(lines 114-118): walk the deque from the head, clearing `in_transit`,
and `break` at the first segment that is not in transit. -/
def clearTransitRun : List Segment → List Segment
  | [] => []
  | s :: rest =>
    if s.in_transit then { s with in_transit := false } :: clearTransitRun rest
    else s :: rest

/-- The duplicate-ACK branch (lines 99-120), entered when
`ack_id == last_ack`: increment `duplicate_acks`; on the third duplicate
run `timeout_reset()`, re-derive `ssthresh` from the now-reset `cwnd`,
set `cwnd = ssthresh`, enter CONGESTION_AVOIDANCE, clear the leading
in-transit run and zero `packets_in_transit`.  (The socket drain between
those steps touches no modelled state.) -/
def dupAck (st : St) : St :=
  let st := { st with duplicate_acks := st.duplicate_acks + 1 }
  if st.duplicate_acks = 3 then
    let st := timeout_reset st
    let st := { st with duplicate_acks := 0 }
    let st := { st with ssthresh := max (⌊st.cwnd / 2⌋ : ℚ) 1 }
    let st := { st with cwnd := st.ssthresh }
    { st with
      curr_state := State.CONGESTION_AVOIDANCE
      packets := clearTransitRun st.packets
      packets_in_transit := 0 }
  else st

/-- Per-removed-segment `cwnd` update of the new-ACK branch
(lines 136-140).  `1 / cwnd` is total on rationals; on every reachable
call `cwnd ≥ 1` (see the `c3` theorems), matching the Python float
division. -/
def cwndGrow (cstate : State) (cwnd : ℚ) : ℚ :=
  if cstate = State.SLOW_START then cwnd + 1
  else if cstate = State.CONGESTION_AVOIDANCE then cwnd + (1 / cwnd + 1 / 8)
  else cwnd

/-- Accumulator of the removal loop of the new-ACK branch: the mutated
globals plus the loop-local `seq_id`/`send_time` rebinding. -/
structure PopAcc where
  cwnd : ℚ
  packets_in_transit : Int
  packet_delays : List ℚ
  seqVar : Option Int
  timeVar : Option (Option ℚ)
deriving DecidableEq, Repr

/-- The removal loop (lines 130-140):
`while packets and packets[0][0] < ack_id`, pop the head, decrement
`packets_in_transit`, append `sample_RTT` to `packet_delays`, update
`cwnd`; the loop rebinds the module-level `seq_id` and `send_time`. -/
def popLoop (cstate : State) (sample : ℚ) (ack : Int) :
    List Segment → PopAcc → List Segment × PopAcc
  | [], acc => ([], acc)
  | s :: rest, acc =>
    if s.seq_id < ack then
      popLoop cstate sample ack rest
        { cwnd := cwndGrow cstate acc.cwnd
          packets_in_transit := acc.packets_in_transit - 1
          packet_delays := acc.packet_delays ++ [sample]
          seqVar := some s.seq_id
          timeVar := some s.send_time }
    else (s :: rest, acc)

/-- The new-ACK branch (lines 121-143).  `tv` is the value of the
`send_time` variable left over from the preceding loops (see `c5`);
`sample_RTT = now - tv`.  Returns the new state together with the
leftover loop variables of the removal loop. -/
def newAck (now tv : ℚ) (ack : Int) (st : St) : St × PopAcc :=
  let sample := now - tv
  let est := ALPHA * st.estimated_RTT + (1 - ALPHA) * sample
  let r := popLoop st.curr_state sample ack st.packets
    { cwnd := st.cwnd
      packets_in_transit := st.packets_in_transit
      packet_delays := st.packet_delays
      seqVar := none
      timeVar := none }
  ({ st with
      last_ack := ack
      duplicate_acks := 0
      estimated_RTT := est
      packets := r.1
      cwnd := r.2.cwnd
      packets_in_transit := r.2.packets_in_transit
      packet_delays := r.2.packet_delays
      timeout := 100 * est }, r.2)

/-- Loop-local variables of the send pass that survive it, plus an
emission log (one `(seq_id, payload length)` entry per `sendto`). -/
structure SendVars where
  seqVar : Option Int
  timeVar : Option (Option ℚ)
  emitted : List (Int × Nat)
deriving DecidableEq, Repr

/-- The send loop (lines 78-88): walk the deque; a segment is sent when
it is not in transit or the state is TIMEOUT (the first such send flips
TIMEOUT back to SLOW_START); `send_time` is stamped on first send; after
each body the loop breaks once `packets_in_transit == int(cwnd)`. -/
def sendLoop (now : ℚ) (cwndI : Int) :
    List Segment → State → Int → SendVars →
      List Segment × State × Int × SendVars
  | [], cstate, pit, vars => ([], cstate, pit, vars)
  | s :: rest, cstate, pit, vars =>
    if s.in_transit = false ∨ cstate = State.TIMEOUT then
      let cstate' := if cstate = State.TIMEOUT then State.SLOW_START else cstate
      let t := s.send_time.getD now
      let s' := { s with send_time := some t, in_transit := true }
      let pit' := pit + 1
      let vars' : SendVars :=
        { seqVar := some s.seq_id
          timeVar := some (some t)
          emitted := vars.emitted ++ [(s.seq_id, s.payload.length)] }
      if pit' = cwndI then (s' :: rest, cstate', pit', vars')
      else
        let r := sendLoop now cwndI rest cstate' pit' vars'
        (s' :: r.1, r.2.1, r.2.2.1, r.2.2.2)
    else
      let vars' : SendVars :=
        { vars with seqVar := some s.seq_id, timeVar := some s.send_time }
      if pit = cwndI then (s :: rest, cstate, pit, vars')
      else
        let r := sendLoop now cwndI rest cstate pit vars'
        (s :: r.1, r.2.1, r.2.2.1, r.2.2.2)

/-- STEP 1 (lines 77-91): run the send loop when the window is non-empty
and `int(cwnd) - packets_in_transit > 0`; otherwise, in SENDING_EOF,
emit the FINACK datagram built from the leftover loop variable `seq_id`
(`none` in the third component means no FINACK was emitted; the inner
`none` would be Python reading an unbound `seq_id`). -/
def step1 (now : ℚ) (st : St) (vars : SendVars) :
    St × SendVars × Option (Option (List Nat)) :=
  if st.packets ≠ [] ∧ 0 < pyInt st.cwnd - st.packets_in_transit then
    let r := sendLoop now (pyInt st.cwnd) st.packets st.curr_state
      st.packets_in_transit vars
    ({ st with packets := r.1, curr_state := r.2.1,
               packets_in_transit := r.2.2.1 }, r.2.2.2, none)
  else if st.curr_state = State.SENDING_EOF then
    (st, vars, some (vars.seqVar.map (fun q => toBytesBE4 q ++ finackBytes)))
  else (st, vars, none)

/-- The `except socket.timeout` branch (lines 144-149): in SENDING_EOF
stamp the end time and break out of the main loop (`true`); otherwise
run `timeout_reset()` and continue. -/
def recvTimeout (st : St) : St × Bool :=
  if st.curr_state = State.SENDING_EOF then (st, true)
  else (timeout_reset st, false)

/-- STEP 3 (lines 152-156): if the head segment has a stamped
`send_time` older than `timeout`, run `timeout_reset()`. -/
def step3 (now : ℚ) (st : St) : St :=
  match st.packets with
  | [] => st
  | s :: _ =>
    match s.send_time with
    | none => st
    | some t => if st.timeout ≤ now - t then timeout_reset st else st

/-- STEP 4, first half (lines 158-161): round `cwnd` up when it is
within 0.1 of the next integer. -/
def roundCwnd (st : St) : St :=
  if pyInt st.cwnd < pyInt (st.cwnd + 1 / 10) then
    { st with cwnd := (pyInt (st.cwnd + 1 / 10) : ℚ) }
  else st

/-- STEP 4, second half (lines 163-166): leave SLOW_START once
`cwnd ≥ ssthresh`, snapping `cwnd` to `ssthresh`. -/
def snapToAvoidance (st : St) : St :=
  if st.curr_state = State.SLOW_START ∧ st.ssthresh ≤ st.cwnd then
    { st with cwnd := st.ssthresh, curr_state := State.CONGESTION_AVOIDANCE }
  else st

/-- The window-fill loop (lines 62-74): while the deque is shorter than
`cwnd` and the state is before SENDING_EOF, read a chunk; append a
fresh segment and advance `seq_id_global` and `total_bytes` on data,
switch to SENDING_EOF at end of file. -/
def fill (file : List Nat) (st : St) : List Nat × St :=
  if (st.packets.length : ℚ) < st.cwnd ∧
      st.curr_state.value < State.SENDING_EOF.value then
    let chunk := file.take MESSAGE_SIZE
    if chunk = [] then (file, { st with curr_state := State.SENDING_EOF })
    else
      fill (file.drop MESSAGE_SIZE)
        { st with
          packets := st.packets ++
            [{ seq_id := st.seq_id_global, send_time := none,
               payload := chunk, in_transit := false }]
          seq_id_global := st.seq_id_global + chunk.length
          total_bytes := st.total_bytes + (SEQ_ID_SIZE + chunk.length) }
  else (file, st)
termination_by file.length
decreasing_by
  rename_i _hguard hchunk
  have hf : file ≠ [] := by
    intro hnil
    refine hchunk ?_
    show List.take MESSAGE_SIZE file = []
    rw [hnil, List.take_nil]
  have hpos : 0 < file.length := List.length_pos.mpr hf
  have hm : MESSAGE_SIZE = 1020 := rfl
  simp only [List.length_drop, hm]
  omega

/-- Predicate on a window: the in-transit segments form a head run
(after the first segment that is not in transit, none is in transit).
This is the shape produced by in-order sending and head removals. -/
def transitLed (w : List Segment) : Prop :=
  ∀ s ∈ w.dropWhile (fun s => s.in_transit), s.in_transit = false

instance : DecidablePred transitLed := fun w => by
  unfold transitLed
  infer_instance

end Reno

/-!
## Vegas sender
(`proj3_..._sender_custom.py`; the file header names it TCP Vegas)
-/

namespace Vegas

/-- Vegas tolerances (lines 19-25). -/
def ALPHA : ℚ := 20

def BETA : ℚ := 40

def DELTA : ℚ := 1000

def GAMMA : ℚ := 85 / 100

def EPSILION : ℚ := 8 / 10

/-- The distinguished-packet phases (`class DistinguishedState`). -/
inductive DistinguishedState where
  | EVAL
  | CHANGE
deriving DecidableEq, Repr

/-- The Vegas sender states (`class State(enum.Enum)`). -/
inductive State where
  | TIMEOUT
  | EVALUATION
  | SLOW_START
  | CONGESTION_AVOIDANCE
  | SENDING_EOF
deriving DecidableEq, Repr

/-- The `.value` of each enum member. -/
def State.value : State → Int
  | .TIMEOUT => -1
  | .EVALUATION => 0
  | .SLOW_START => 1
  | .CONGESTION_AVOIDANCE => 2
  | .SENDING_EOF => 3

/-- One entry of the Vegas `packets` deque:
`(seq_id, time_sent, message, in_transit, is_distinguished, data_rate)`. -/
structure Segment where
  seq_id : Int
  send_time : Option ℚ
  payload : List Nat
  in_transit : Bool
  distinguished : Bool
  data_rate : Option ℚ
deriving DecidableEq, Repr

/-- The module-level mutable state of the Vegas sender. -/
structure St where
  seq_id_global : Int
  curr_state : State
  cwnd : ℚ
  duplicate_acks : Nat
  last_ack : Int
  timeout : ℚ
  packets_in_transit : Int
  duplicate_flag : Bool
  base_RTT : Option ℚ
  estimated_RTT : ℚ
  expected_throughput : Option ℚ
  acutal_throughput : Option ℚ
  distinguished_bytes : Int
  distinguished_out : Bool
  distinguished_state : DistinguishedState
  packets : List Segment
  total_bytes : Nat
  packet_delays : List ℚ
deriving DecidableEq, Repr

/-- The `base_RTT` update of the new-ACK branch (lines 140-143): an
unset or sub-0.0001 `base_RTT` is overwritten by the sample; otherwise
the sample replaces it only when smaller and above 0.0001. -/
def baseUpdate (base : Option ℚ) (sample : ℚ) : ℚ :=
  match base with
  | none => sample
  | some b =>
    if b < 1 / 10000 then sample
    else if sample < b ∧ 1 / 10000 < sample then sample
    else b

/-- Per-removed-segment `cwnd` update (lines 160-169).  In
CONGESTION_AVOIDANCE during a CHANGE phase the code computes
`abs(expected_throughput - acutal_throughput)`; `acutal = none` would
raise a `TypeError` and `1 / cwnd` with `cwnd = 0` a
`ZeroDivisionError`, so those executions are `none`. -/
def cwndStep (dstate : DistinguishedState) (cstate : State)
    (expected : ℚ) (acutal : Option ℚ) (cwnd : ℚ) : Option ℚ :=
  if dstate = DistinguishedState.CHANGE then
    if cstate = State.SLOW_START then some (cwnd + 1)
    else if cstate = State.CONGESTION_AVOIDANCE then
      match acutal with
      | none => none
      | some a =>
        if cwnd = 0 then none
        else if |expected - a| < ALPHA then some (cwnd + (1 / cwnd + 1 / 8))
        else if BETA < |expected - a| then some (cwnd - (1 / cwnd - 1 / 8))
        else some cwnd
    else some cwnd
  else some cwnd

/-- Accumulator of the Vegas removal loop. -/
structure PopAcc where
  cwnd : ℚ
  curr_state : State
  packets_in_transit : Int
  packet_delays : List ℚ
  distinguished_out : Bool
  acutal_throughput : Option ℚ
  seqVar : Option Int
  timeVar : Option (Option ℚ)
deriving DecidableEq, Repr

/-- The removal loop of the Vegas new-ACK branch (lines 148-179):
pop heads with `seq_id < ack_id`; per pop update `cwnd` (CHANGE phase),
and on a distinguished pop clear `distinguished_out` and, in an EVAL
phase, set `acutal_throughput = distinguished_bytes / packet_RTT`
(`none` on `packet_RTT = 0`, a `ZeroDivisionError`) and enter
CONGESTION_AVOIDANCE when expected exceeds it by more than `DELTA`. -/
def popLoop (rtt : ℚ) (ack : Int) (dstate : DistinguishedState)
    (dbytes : Int) (expected : ℚ) :
    List Segment → PopAcc → Option (List Segment × PopAcc)
  | [], acc => some ([], acc)
  | s :: rest, acc =>
    if s.seq_id < ack then
      match cwndStep dstate acc.curr_state expected acc.acutal_throughput
          acc.cwnd with
      | none => none
      | some cwnd' =>
        let acc := { acc with
          cwnd := cwnd'
          packets_in_transit := acc.packets_in_transit - 1
          packet_delays := acc.packet_delays ++ [rtt]
          seqVar := some s.seq_id
          timeVar := some s.send_time }
        if s.distinguished then
          let acc := { acc with distinguished_out := false }
          if dstate = DistinguishedState.EVAL then
            if rtt = 0 then none
            else
              let a := (dbytes : ℚ) / rtt
              let acc := { acc with
                acutal_throughput := some a
                curr_state :=
                  if DELTA < expected - a then State.CONGESTION_AVOIDANCE
                  else acc.curr_state }
              popLoop rtt ack dstate dbytes expected rest acc
          else popLoop rtt ack dstate dbytes expected rest acc
        else popLoop rtt ack dstate dbytes expected rest acc
    else some (s :: rest, acc)

/-- The Vegas new-ACK branch (lines 133-182).  `tv` is the leftover
`send_time` variable; `packet_RTT = now - tv`.  `expected_throughput`
is recomputed as `int(cwnd) / base_RTT` before the removal loop
(`none` on `base_RTT = 0`, a `ZeroDivisionError`); `timeout` is reset
to 1 afterwards. -/
def newAck (now tv : ℚ) (ack : Int) (st : St) : Option St :=
  let rtt := now - tv
  let base := baseUpdate st.base_RTT rtt
  if base = 0 then none
  else
    let expected := (pyInt st.cwnd : ℚ) / base
    let est := GAMMA * st.estimated_RTT + (1 - GAMMA) * rtt
    match popLoop rtt ack st.distinguished_state st.distinguished_bytes
        expected st.packets
        { cwnd := st.cwnd
          curr_state := st.curr_state
          packets_in_transit := st.packets_in_transit
          packet_delays := st.packet_delays
          distinguished_out := st.distinguished_out
          acutal_throughput := st.acutal_throughput
          seqVar := none
          timeVar := none } with
    | none => none
    | some r =>
      some { st with
        last_ack := ack
        duplicate_acks := 0
        base_RTT := some base
        expected_throughput := some expected
        estimated_RTT := est
        packets := r.1
        cwnd := r.2.cwnd
        curr_state := r.2.curr_state
        packets_in_transit := r.2.packets_in_transit
        packet_delays := r.2.packet_delays
        distinguished_out := r.2.distinguished_out
        acutal_throughput := r.2.acutal_throughput
        timeout := 1 }

/-- STEP 2 dispatch on a received ACK (lines 130-136): a duplicate
(`ack_id == last_ack`) only increments `duplicate_acks`; otherwise the
new-ACK branch runs. -/
def recvAck (now tv : ℚ) (ack : Int) (st : St) : Option St :=
  if ack = st.last_ack then
    some { st with duplicate_acks := st.duplicate_acks + 1 }
  else newAck now tv ack st

/-- Iterated STEP 2: `n` consecutive received ACKs carrying the same
number `ack`. -/
def recvAckIter (now tv : ℚ) (ack : Int) : Nat → St → Option St
  | 0, st => some st
  | n + 1, st =>
    match recvAck now tv ack st with
    | none => none
    | some st' => recvAckIter now tv ack n st'

/-- Loop-local variables and mutated globals of the Vegas send pass. -/
structure SendAcc where
  curr_state : State
  packets_in_transit : Int
  distinguished_out : Bool
  distinguished_state : DistinguishedState
  distinguished_bytes : Int
  expected_throughput : Option ℚ
  seqVar : Option Int
  timeVar : Option (Option ℚ)
  emitted : List (Int × Nat)
deriving DecidableEq, Repr

/-- The Vegas send loop (lines 91-120): like Reno's, but a freshly sent
segment is marked distinguished when none is outstanding (toggling the
phase), a TIMEOUT resend rewinds `distinguished_bytes` by one
`MESSAGE_SIZE`, and `distinguished_bytes` restarts at `MESSAGE_SIZE` on
a distinguished send and accumulates `MESSAGE_SIZE` otherwise; the sent
segment records the current `expected_throughput` as its data rate. -/
def sendLoop (now : ℚ) (cwndI : Int) :
    List Segment → SendAcc → List Segment × SendAcc
  | [], acc => ([], acc)
  | s :: rest, acc =>
    if s.in_transit = false ∨ acc.curr_state = State.TIMEOUT then
      let dist := if acc.distinguished_out = false then true else s.distinguished
      let dout := true
      let dstate :=
        if acc.distinguished_out = false then
          (if acc.distinguished_state = DistinguishedState.CHANGE then
            DistinguishedState.EVAL else DistinguishedState.CHANGE)
        else acc.distinguished_state
      let cstate :=
        if acc.curr_state = State.TIMEOUT then State.SLOW_START
        else acc.curr_state
      let dbytes0 :=
        if acc.curr_state = State.TIMEOUT then
          acc.distinguished_bytes - (MESSAGE_SIZE : Int)
        else acc.distinguished_bytes
      let dbytes :=
        if dist then (MESSAGE_SIZE : Int) else dbytes0 + (MESSAGE_SIZE : Int)
      let t := s.send_time.getD now
      let s' := { s with
        send_time := some t
        in_transit := true
        distinguished := dist
        data_rate := acc.expected_throughput }
      let pit' := acc.packets_in_transit + 1
      let acc' := { acc with
        curr_state := cstate
        packets_in_transit := pit'
        distinguished_out := dout
        distinguished_state := dstate
        distinguished_bytes := dbytes
        seqVar := some s.seq_id
        timeVar := some (some t)
        emitted := acc.emitted ++ [(s.seq_id, s.payload.length)] }
      if pit' = cwndI then (s' :: rest, acc')
      else
        let r := sendLoop now cwndI rest acc'
        (s' :: r.1, r.2)
    else
      let acc' := { acc with
        seqVar := some s.seq_id, timeVar := some s.send_time }
      if acc.packets_in_transit = cwndI then (s :: rest, acc')
      else
        let r := sendLoop now cwndI rest acc'
        (s :: r.1, r.2)

/-- STEP 3 of the Vegas driver (lines 190-202): when the head segment
timed out, compare its recorded data rate with `expected_throughput`;
on a close match halve `cwnd` (floored at 1) and enter TIMEOUT,
otherwise ignore the timeout.  `abs(None - x)` would raise, hence
`Option`. -/
def timeoutCheck (now : ℚ) (st : St) : Option St :=
  match st.packets with
  | [] => some st
  | s :: _ =>
    match s.send_time with
    | none => some st
    | some t =>
      if st.timeout ≤ now - t then
        match s.data_rate, st.expected_throughput with
        | some r, some e =>
          if |r - e| < EPSILION then
            some { st with cwnd := max (⌊st.cwnd / 2⌋ : ℚ) 1,
                           curr_state := State.TIMEOUT }
          else some st
        | _, _ => none
      else some st

/-- The Vegas window-fill loop (lines 74-88): while the deque is
shorter than `cwnd` and the state precedes SENDING_EOF, read a chunk,
append the segment (not in transit, not distinguished, no recorded
data rate) and add the full datagram length (4-byte header plus
payload) to `total_bytes`; at end of file enter SENDING_EOF. -/
def fill (file : List Nat) (st : St) : List Nat × St :=
  if (st.packets.length : ℚ) < st.cwnd ∧
      st.curr_state.value < State.SENDING_EOF.value then
    let chunk := file.take MESSAGE_SIZE
    if chunk = [] then (file, { st with curr_state := State.SENDING_EOF })
    else
      fill (file.drop MESSAGE_SIZE)
        { st with
          packets := st.packets ++
            [{ seq_id := st.seq_id_global, send_time := none,
               payload := chunk, in_transit := false,
               distinguished := false, data_rate := none }]
          seq_id_global := st.seq_id_global + chunk.length
          total_bytes := st.total_bytes + (SEQ_ID_SIZE + chunk.length) }
  else (file, st)
termination_by file.length
decreasing_by
  rename_i _hguard hchunk
  have hf : file ≠ [] := by
    intro hnil
    refine hchunk ?_
    show List.take MESSAGE_SIZE file = []
    rw [hnil, List.take_nil]
  have hpos : 0 < file.length := List.length_pos.mpr hf
  have hm : MESSAGE_SIZE = 1020 := rfl
  simp only [List.length_drop, hm]
  omega

end Vegas

/-!
## Stop-and-wait sender (`sender_stop_and_wait.py`)

Closed-loop model: the sender composed with the ideal peer of the
round-trip property (lossless, zero delay, ACKs `seq_id + len(chunk)`,
answers the EOF datagram with `fin`, silent on FINACK).  The abstract
clock advances one tick per completed send/receive exchange.
-/

namespace Saw

/-- The stop-and-wait sender states. -/
inductive State where
  | SENDING_DATA
  | SENDING_EOF
  | SENDING_FINACK
  | COMPLETE
deriving DecidableEq, Repr

/-- Stop-and-wait sender state (with the metrics accumulators; only the
number of recorded delays matters to the claims). -/
structure St where
  seq_id : Int
  curr_state : State
  total_bytes : Nat
  packet_delays : Nat
  tick : Nat
  end_tick : Nat
deriving DecidableEq, Repr

/-- One outer iteration of the main loop (lines 45-96) per recursion
step, against the ideal peer.  A data chunk is ACKed at once
(`total_bytes += PACKET_SIZE`, line 54).  When the file is exhausted
the remaining two iterations are inlined: the EOF iteration (empty
payload, peer answers `fin`, one delay recorded) and the FINACK
iteration (peer silent, receive timeout, COMPLETE). -/
def run (file : List Nat) (st : St) : St :=
  match st.curr_state with
  | State.SENDING_DATA =>
    let chunk := file.take MESSAGE_SIZE
    if chunk = [] then
      { st with
        curr_state := State.COMPLETE
        packet_delays := st.packet_delays + 1
        tick := st.tick + 2
        end_tick := st.tick + 2 }
    else
      run (file.drop MESSAGE_SIZE)
        { st with
          seq_id := st.seq_id + chunk.length
          total_bytes := st.total_bytes + PACKET_SIZE
          packet_delays := st.packet_delays + 1
          tick := st.tick + 1 }
  | _ => st
termination_by file.length
decreasing_by
  rename_i hchunk
  have hf : file ≠ [] := by
    intro hnil
    refine hchunk ?_
    show List.take MESSAGE_SIZE file = []
    rw [hnil, List.take_nil]
  have hpos : 0 < file.length := List.length_pos.mpr hf
  have hm : MESSAGE_SIZE = 1020 := rfl
  simp only [List.length_drop, hm]
  omega

/-- Initial stop-and-wait state (start of the transfer, clock at 0). -/
def init : St :=
  { seq_id := 0, curr_state := State.SENDING_DATA, total_bytes := 0,
    packet_delays := 0, tick := 0, end_tick := 0 }

/-- Final throughput metric: `total_bytes / (end_time - start_time)`
when the elapsed time is positive, else 0 (lines 104-107). -/
def throughput (st : St) : ℚ :=
  if 0 < st.end_tick then (st.total_bytes : ℚ) / (st.end_tick : ℚ) else 0

end Saw

/-!
## Fixed sliding-window sender (`sender_fixed_sliding_window.py`)

Closed-loop model against the same ideal peer.  The peer's in-flight
cumulative ACKs are a FIFO `queue`; a `sendto` of a data segment
appends `seq_id + len(chunk)` to it, `recvfrom` pops its head, and an
empty queue is a receive timeout.  Window entries are
`(seq_id, chunk length)`.
-/

namespace Fw

/-- The fixed-window sender states. -/
inductive State where
  | SENDING_DATA
  | SENDING_EOF
  | SENDING_FINACK
  | COMPLETE
deriving DecidableEq, Repr

/-- Fixed-window sender state plus the in-flight ACK queue of the ideal
peer. -/
structure St where
  seq_id : Int
  curr_state : State
  window : List (Int × Nat)
  queue : List Int
  total_bytes : Nat
  packet_delays : Nat
  tick : Nat
  end_tick : Nat
deriving DecidableEq, Repr

/-- `WINDOW_SIZE = 100` (line 18). -/
def WINDOW_SIZE : Nat := 100

/-- The window-fill loop (lines 50-63), fuelled by the free window
capacity (the loop appends one segment per iteration, so
`WINDOW_SIZE - window.length` iterations exhaust the guard): read a
chunk, send it (the ideal peer immediately queues its cumulative ACK),
append it to the window; at end of file enter SENDING_EOF. -/
def fillAux : Nat → List Nat → St → List Nat × St
  | 0, file, st => (file, st)
  | cap + 1, file, st =>
    if st.window.length < WINDOW_SIZE ∧ st.curr_state = State.SENDING_DATA then
      let chunk := file.take MESSAGE_SIZE
      if chunk = [] then (file, { st with curr_state := State.SENDING_EOF })
      else
        fillAux cap (file.drop MESSAGE_SIZE)
          { st with
            window := st.window ++ [(st.seq_id, chunk.length)]
            queue := st.queue ++ [st.seq_id + (chunk.length : Int)]
            seq_id := st.seq_id + (chunk.length : Int)
            total_bytes := st.total_bytes + (SEQ_ID_SIZE + chunk.length) }
    else (file, st)

/-- The window-fill loop with its capacity fuel. -/
def fill (file : List Nat) (st : St) : List Nat × St :=
  fillAux (WINDOW_SIZE - st.window.length) file st

/-- The ACK-removal loop (lines 73-76). -/
def ackRemove (ack : Int) (w : List (Int × Nat)) : List (Int × Nat) :=
  w.dropWhile (fun s => decide (s.1 < ack))

/-- One outer iteration of the main loop (lines 48-92): fill, then
receive.  On an ACK: drop the acknowledged head segments (one recorded
delay each) and, in SENDING_EOF with an empty window or already in
SENDING_FINACK, emit FINACK.  On a receive timeout: in SENDING_FINACK
finish (`true`), otherwise retransmit every window segment (each resent
segment is re-ACKed by the ideal peer) - that loop clobbers the
module-level `seq_id` with the last window entry's seq_id. -/
def iter (file : List Nat) (st : St) : List Nat × St × Bool :=
  let r := fill file st
  let file' := r.1
  let st := r.2
  match st.queue with
  | ack :: q =>
    let removed := (ackPopped (fun s : Int × Nat => s.1) ack st.window).length
    let w := ackRemove ack st.window
    let st := { st with
      window := w
      queue := q
      packet_delays := st.packet_delays + removed
      tick := st.tick + 1 }
    if (st.curr_state = State.SENDING_EOF ∧ w = []) ∨
        st.curr_state = State.SENDING_FINACK then
      (file', { st with curr_state := State.SENDING_FINACK }, false)
    else (file', st, false)
  | [] =>
    if st.curr_state = State.SENDING_FINACK then
      (file', { st with
        curr_state := State.COMPLETE
        tick := st.tick + 1
        end_tick := st.tick + 1 }, true)
    else
      (file', { st with
        queue := st.window.map (fun s => s.1 + (s.2 : Int))
        seq_id := ((st.window.getLast?).map (fun s => s.1)).getD st.seq_id
        tick := st.tick + 1 }, false)

/-- The main loop, fuelled: `none` when the fuel runs out before the
transfer completes. -/
def run : Nat → List Nat → St → Option St
  | 0, _, _ => none
  | fuel + 1, file, st =>
    let r := iter file st
    if r.2.2 then some r.2.1 else run fuel r.1 r.2.1

/-- Initial fixed-window state. -/
def init : St :=
  { seq_id := 0, curr_state := State.SENDING_DATA, window := [],
    queue := [], total_bytes := 0, packet_delays := 0, tick := 0,
    end_tick := 0 }

/-- Final throughput metric (lines 101-104). -/
def throughput (st : St) : ℚ :=
  if 0 < st.end_tick then (st.total_bytes : ℚ) / (st.end_tick : ℚ) else 0

end Fw

/-- The cumulative-ACK numbers of the window segments, in order: what
the ideal peer has queued for them. -/
def winAcks (w : List (Int × Nat)) : List Int :=
  w.map (fun s => s.1 + (s.2 : Int))

/-- Adjacent window segments do not overlap: each ends at or before the
next one starts. -/
def winLe (s t : Int × Nat) : Prop := s.1 + (s.2 : Int) ≤ t.1

/-- Phase rank of the fixed-window sender, decreasing along the
shutdown path; part of the termination measure of the closed loop. -/
def fwRank : Fw.State → Nat
  | Fw.State.SENDING_DATA => 3
  | Fw.State.SENDING_EOF => 2
  | Fw.State.SENDING_FINACK => 1
  | Fw.State.COMPLETE => 0

/-- Invariant of the reachable joint states of the fixed-window sender
and the ideal peer, holding at the top of every main-loop iteration:
the ACK queue mirrors the window, window segments are non-empty,
non-overlapping, within `seq_id` and within the window bound, progress
is guaranteed (bytes already counted, or data still to send), and each
phase constrains the remaining file and window. -/
def FwInv (file : List Nat) (st : Fw.St) : Prop :=
  st.queue = winAcks st.window ∧
  (∀ s ∈ st.window, 1 ≤ s.2 ∧ s.1 + (s.2 : Int) ≤ st.seq_id) ∧
  List.Chain' winLe st.window ∧
  st.window.length ≤ Fw.WINDOW_SIZE ∧
  (0 < st.total_bytes ∨
    (st.curr_state = Fw.State.SENDING_DATA ∧ file ≠ [])) ∧
  (match st.curr_state with
   | Fw.State.SENDING_DATA => st.window = [] → file ≠ []
   | Fw.State.SENDING_EOF => file = [] ∧ st.window ≠ []
   | Fw.State.SENDING_FINACK => file = [] ∧ st.window = []
   | Fw.State.COMPLETE => False)

/-- Number of `MESSAGE_SIZE`-byte chunks the segmenter cuts a file
into (the last chunk may be shorter). -/
def chunkCount (file : List Nat) : Nat :=
  if file = [] then 0 else 1 + chunkCount (file.drop MESSAGE_SIZE)
termination_by file.length
decreasing_by
  rename_i hne
  have hpos : 0 < file.length := List.length_pos.mpr hne
  have hm : MESSAGE_SIZE = 1020 := rfl
  simp only [List.length_drop, hm]
  omega

/-!
## Example states used by the witnesses and counterexamples
-/

/-- The initial Reno sender state (module-level globals at startup). -/
def renoInit : Reno.St :=
  { seq_id_global := 0, curr_state := Reno.State.SLOW_START, cwnd := 1,
    ssthresh := 64, duplicate_acks := 0, last_ack := -1, timeout := 1,
    estimated_RTT := 0, packets_in_transit := 0, packets := [],
    total_bytes := 0, packet_delays := [] }

/-- A one-byte input file. -/
def oneByteFile : List Nat := [7]

/-- A Vegas state in CONGESTION_AVOIDANCE (CHANGE phase) with
`cwnd = 1` and a large expected/actual throughput gap; reachable shape
of the decay branch of the Vegas `cwnd` update. -/
def c3VegasSt : Vegas.St :=
  { seq_id_global := 1020, curr_state := Vegas.State.CONGESTION_AVOIDANCE,
    cwnd := 1, duplicate_acks := 0, last_ack := -1, timeout := 1,
    packets_in_transit := 1, duplicate_flag := false, base_RTT := some 1,
    estimated_RTT := 1, expected_throughput := some 1,
    acutal_throughput := some 50, distinguished_bytes := 1020,
    distinguished_out := true,
    distinguished_state := Vegas.DistinguishedState.CHANGE,
    packets := [{ seq_id := 0, send_time := some 0, payload := [1],
                  in_transit := true, distinguished := false,
                  data_rate := some 1 }],
    total_bytes := 1024, packet_delays := [] }

/-- The initial Vegas sender state (module-level globals at startup,
after lines 67-68 set SLOW_START and the CHANGE phase). -/
def vegasInit : Vegas.St :=
  { seq_id_global := 0, curr_state := Vegas.State.SLOW_START,
    cwnd := 1, duplicate_acks := 0, last_ack := -1, timeout := 1,
    packets_in_transit := 0, duplicate_flag := false, base_RTT := none,
    estimated_RTT := 0, expected_throughput := none,
    acutal_throughput := none, distinguished_bytes := 0,
    distinguished_out := false,
    distinguished_state := Vegas.DistinguishedState.CHANGE,
    packets := [], total_bytes := 0, packet_delays := [] }

/-- A Reno state immediately after `timeout_reset()` - TIMEOUT state,
`cwnd = 1`, no packet in transit - with a window of two in-transit
segments awaiting retransmission. -/
def c4RenoSt : Reno.St :=
  { seq_id_global := 2040, curr_state := Reno.State.TIMEOUT, cwnd := 1,
    ssthresh := 1, duplicate_acks := 0, last_ack := -1, timeout := 1,
    estimated_RTT := 0, packets_in_transit := 0,
    packets := [
      { seq_id := 0, send_time := some 1, payload := [5],
        in_transit := true },
      { seq_id := 1020, send_time := some 2, payload := [6],
        in_transit := true }],
    total_bytes := 2048, packet_delays := [] }

/-- Fresh loop variables for a send pass. -/
def noVars : Reno.SendVars := { seqVar := none, timeVar := none, emitted := [] }

/-- A Reno window whose head was sent at time 5 and whose second
segment is still unsent: the shape that makes the send pass leave the
`send_time` of a non-head segment in the loop variable. -/
def c5Window : List Reno.Segment :=
  [{ seq_id := 0, send_time := some 5, payload := [3], in_transit := true },
   { seq_id := 1020, send_time := none, payload := [4], in_transit := false }]

/-- A fully in-transit two-segment Reno window (head sent at 5, second
at 6). -/
def c5AllTransit : List Reno.Segment :=
  [{ seq_id := 0, send_time := some 5, payload := [3], in_transit := true },
   { seq_id := 1020, send_time := some 6, payload := [4], in_transit := true }]

/-- A fully in-transit two-segment Vegas window (head sent at 5, second
at 6). -/
def c5VegasAllTransit : List Vegas.Segment :=
  [{ seq_id := 0, send_time := some 5, payload := [3], in_transit := true,
     distinguished := true, data_rate := some 1 },
   { seq_id := 1020, send_time := some 6, payload := [4], in_transit := true,
     distinguished := false, data_rate := some 1 }]

/-- A Reno state at the end of a 3060-byte transfer (three 1020-byte
chunks): the whole file has been segmented (`seq_id_global = 3060`,
state SENDING_EOF) and the final cumulative ACK 3060 is about to remove
the last window segment, which starts at offset 2040. -/
def c6RenoSt : Reno.St :=
  { seq_id_global := 3060, curr_state := Reno.State.SENDING_EOF, cwnd := 2,
    ssthresh := 64, duplicate_acks := 0, last_ack := 2040, timeout := 1,
    estimated_RTT := 0, packets_in_transit := 1,
    packets := [{ seq_id := 2040, send_time := some 3, payload := [9],
                  in_transit := true }],
    total_bytes := 3072, packet_delays := [] }

/-- A Reno state carrying `c5AllTransit` as its window. -/
def c5RenoSt : Reno.St :=
  { seq_id_global := 2040, curr_state := Reno.State.SLOW_START, cwnd := 5,
    ssthresh := 64, duplicate_acks := 0, last_ack := -1, timeout := 1,
    estimated_RTT := 0, packets_in_transit := 2, packets := c5AllTransit,
    total_bytes := 2048, packet_delays := [] }

/-- Fresh accumulator for a Vegas send pass over `c5VegasAllTransit`. -/
def c5VegasAcc : Vegas.SendAcc :=
  { curr_state := Vegas.State.SLOW_START, packets_in_transit := 2,
    distinguished_out := true,
    distinguished_state := Vegas.DistinguishedState.CHANGE,
    distinguished_bytes := 1020, expected_throughput := some 1,
    seqVar := none, timeVar := none, emitted := [] }

/-!
## Helper lemmas
-/

theorem pyInt_of_nonneg {q : ℚ} (h : 0 ≤ q) : pyInt q = ⌊q⌋ := by
  unfold pyInt
  split
  · next hlt => exact absurd h (not_le.mpr hlt)
  · rfl

theorem ackPopped_eq_filter (seq : α → Int) (ack : Int) :
    ∀ w : List α, SeqSorted seq w →
      ackPopped seq ack w = w.filter (fun s => decide (seq s < ack)) := by
  intro w hw
  induction w with
  | nil => rfl
  | cons x xs ih =>
    rcases List.pairwise_cons.mp hw with ⟨hx, hxs⟩
    by_cases h : seq x < ack
    · rw [ackPopped, List.takeWhile_cons_of_pos (by simpa using h),
        List.filter_cons_of_pos (by simpa using h)]
      exact congrArg (x :: ·) (ih hxs)
    · have hall : ∀ s ∈ xs, ¬ seq s < ack := by
        intro s hs
        have := hx s hs
        omega
      rw [ackPopped, List.takeWhile_cons_of_neg (by simpa using h),
        List.filter_cons_of_neg (by simpa using h)]
      exact (List.filter_eq_nil_iff.mpr (by intro s hs; simpa using hall s hs)).symm

theorem ackKept_eq_filter (seq : α → Int) (ack : Int) :
    ∀ w : List α, SeqSorted seq w →
      ackKept seq ack w = w.filter (fun s => decide (¬ seq s < ack)) := by
  intro w hw
  induction w with
  | nil => rfl
  | cons x xs ih =>
    rcases List.pairwise_cons.mp hw with ⟨hx, hxs⟩
    by_cases h : seq x < ack
    · rw [ackKept, List.dropWhile_cons_of_pos (by simpa using h),
        List.filter_cons_of_neg (by simpa using h)]
      exact ih hxs
    · have hall : ∀ s ∈ xs, ¬ seq s < ack := by
        intro s hs
        have := hx s hs
        omega
      rw [ackKept, List.dropWhile_cons_of_neg (by simpa using h),
        List.filter_cons_of_pos (by simpa using h)]
      exact congrArg (x :: ·)
        (List.filter_eq_self.mpr (by intro s hs; simpa using hall s hs)).symm

theorem ackKept_no_low (seq : α → Int) (ack : Int) (w : List α)
    (hw : SeqSorted seq w) : ∀ s ∈ ackKept seq ack w, ¬ seq s < ack := by
  intro s hs
  rw [ackKept_eq_filter seq ack w hw] at hs
  have := List.of_mem_filter hs
  simpa using this

theorem clearTransitRun_all_false (w : List Reno.Segment)
    (hw : Reno.transitLed w) :
    ∀ s ∈ Reno.clearTransitRun w, s.in_transit = false := by
  induction w with
  | nil => intro s hs; simp [Reno.clearTransitRun] at hs
  | cons x xs ih =>
    intro s hs
    by_cases hx : x.in_transit
    · rw [Reno.clearTransitRun] at hs
      simp only [hx, if_true] at hs
      rcases List.mem_cons.mp hs with h | h
      · rw [h]
      · refine ih ?_ s h
        unfold Reno.transitLed at hw ⊢
        rwa [List.dropWhile_cons_of_pos (by simpa using hx)] at hw
    · rw [Reno.clearTransitRun] at hs
      simp only [hx, if_false] at hs
      unfold Reno.transitLed at hw
      rw [List.dropWhile_cons_of_neg (by simpa using hx)] at hw
      exact hw s hs

theorem reno_dupAck_eq (st : Reno.St) :
    Reno.dupAck st =
      if st.duplicate_acks + 1 = 3 then
        { st with
          duplicate_acks := 0
          ssthresh := max (⌊(1 : ℚ) / 2⌋ : ℚ) 1
          cwnd := max (⌊(1 : ℚ) / 2⌋ : ℚ) 1
          curr_state := Reno.State.CONGESTION_AVOIDANCE
          packets := Reno.clearTransitRun st.packets
          packets_in_transit := 0 }
      else { st with duplicate_acks := st.duplicate_acks + 1 } := by
  by_cases h3 : st.duplicate_acks + 1 = 3
  · simp [Reno.dupAck, Reno.timeout_reset, h3]
  · simp [Reno.dupAck, Reno.timeout_reset, h3]

theorem reno_cwndGrow_ge_one (cstate : Reno.State) {cwnd : ℚ}
    (h : 1 ≤ cwnd) : 1 ≤ Reno.cwndGrow cstate cwnd := by
  unfold Reno.cwndGrow
  have hpos : 0 < cwnd := lt_of_lt_of_le one_pos h
  have hdiv : 0 ≤ 1 / cwnd := by positivity
  split
  · linarith
  · split
    · linarith
    · exact h

theorem reno_popLoop_cwnd_ge_one (cstate : Reno.State) (sample : ℚ)
    (ack : Int) : ∀ (w : List Reno.Segment) (acc : Reno.PopAcc),
    1 ≤ acc.cwnd → 1 ≤ (Reno.popLoop cstate sample ack w acc).2.cwnd := by
  intro w
  induction w with
  | nil => intro acc h; exact h
  | cons s rest ih =>
    intro acc h
    rw [Reno.popLoop]
    split
    · exact ih _ (reno_cwndGrow_ge_one cstate h)
    · exact h

theorem reno_fill_frame (file : List Nat) (st : Reno.St) :
    (Reno.fill file st).2.cwnd = st.cwnd ∧
    (Reno.fill file st).2.ssthresh = st.ssthresh := by
  induction file, st using Reno.fill.induct with
  | case1 file st hguard chunk hnil =>
    rw [Reno.fill, if_pos hguard]
    simp only [show List.take MESSAGE_SIZE file = [] from hnil]
    simp
  | case2 file st hguard chunk hnil ih =>
    rw [Reno.fill, if_pos hguard]
    simp only [if_neg hnil]
    exact ih
  | case3 file st hguard =>
    rw [Reno.fill, if_neg hguard]
    exact ⟨rfl, rfl⟩

/-!
## C1: Reno triple-duplicate-ACK reaction
-/

/-- C1 (counterexample). The claim says that on the third duplicate ACK
`ssthresh` becomes `max(cwnd/2, 1)` for the `cwnd` held before the
event, and `cwnd` becomes that `ssthresh`: at `cwnd = 8` that would be
`ssthresh = 4`.  The code runs `timeout_reset()` first, which has
already reset `cwnd` to 1 when `ssthresh` is recomputed, so the handler
yields `ssthresh = 1`. -/
theorem c1_third_dup_ack_counterexample :
    (Reno.dupAck
      { seq_id_global := 3060, curr_state := Reno.State.SLOW_START,
        cwnd := 8, ssthresh := 64, duplicate_acks := 2, last_ack := 1020,
        timeout := 1, estimated_RTT := 0, packets_in_transit := 0,
        packets := [], total_bytes := 0, packet_delays := [] }).ssthresh ≠
      max ((8 : ℚ) / 2) 1 := by
  norm_num [Reno.dupAck, Reno.timeout_reset]

/-- C1 (amended). On the third duplicate ACK the Reno handler ends with
`ssthresh = 1` and `cwnd = 1` (because `timeout_reset()` has already
halved `ssthresh` and reset `cwnd` to 1 before `ssthresh` is recomputed
from the new `cwnd`), enters CONGESTION_AVOIDANCE, clears the
in-transit flags of the leading in-transit run of the window (hence of
every window segment whenever the in-transit segments form a head run),
and resets `packets_in_transit` to 0. -/
theorem c1_third_dup_ack (st : Reno.St) (h : st.duplicate_acks = 2) :
    (Reno.dupAck st).ssthresh = 1 ∧
    (Reno.dupAck st).cwnd = 1 ∧
    (Reno.dupAck st).curr_state = Reno.State.CONGESTION_AVOIDANCE ∧
    (Reno.dupAck st).packets = Reno.clearTransitRun st.packets ∧
    (Reno.dupAck st).packets_in_transit = 0 ∧
    (Reno.dupAck st).duplicate_acks = 0 ∧
    (Reno.transitLed st.packets →
      ∀ s ∈ (Reno.dupAck st).packets, s.in_transit = false) := by
  have hfloor : (⌊(1 : ℚ) / 2⌋ : ℚ) = 0 := by norm_num
  unfold Reno.dupAck Reno.timeout_reset
  simp only [h]
  norm_num [hfloor]
  exact fun hw => clearTransitRun_all_false st.packets hw

/-- C1 (witness). The amended theorem applied at a concrete state with
two prior duplicates and a fully in-transit two-segment window. -/
theorem c1_third_dup_ack_witness :
    (Reno.dupAck
      { seq_id_global := 2040, curr_state := Reno.State.SLOW_START,
        cwnd := 8, ssthresh := 64, duplicate_acks := 2, last_ack := 1020,
        timeout := 1, estimated_RTT := 0, packets_in_transit := 2,
        packets := [
          { seq_id := 0, send_time := some 1, payload := [1],
            in_transit := true },
          { seq_id := 1, send_time := some 2, payload := [2],
            in_transit := true }],
        total_bytes := 2048, packet_delays := [] }).ssthresh = 1 ∧
    (∀ s ∈ (Reno.dupAck
      { seq_id_global := 2040, curr_state := Reno.State.SLOW_START,
        cwnd := 8, ssthresh := 64, duplicate_acks := 2, last_ack := 1020,
        timeout := 1, estimated_RTT := 0, packets_in_transit := 2,
        packets := [
          { seq_id := 0, send_time := some 1, payload := [1],
            in_transit := true },
          { seq_id := 1, send_time := some 2, payload := [2],
            in_transit := true }],
        total_bytes := 2048, packet_delays := [] }).packets,
      s.in_transit = false) := by
  have h := c1_third_dup_ack
    { seq_id_global := 2040, curr_state := Reno.State.SLOW_START,
      cwnd := 8, ssthresh := 64, duplicate_acks := 2, last_ack := 1020,
      timeout := 1, estimated_RTT := 0, packets_in_transit := 2,
      packets := [
        { seq_id := 0, send_time := some 1, payload := [1],
          in_transit := true },
        { seq_id := 1, send_time := some 2, payload := [2],
          in_transit := true }],
      total_bytes := 2048, packet_delays := [] } rfl
  exact ⟨h.1, h.2.2.2.2.2.2 (by decide)⟩

theorem reno_popLoop_window (cstate : Reno.State) (sample : ℚ) (ack : Int) :
    ∀ (w : List Reno.Segment) (acc : Reno.PopAcc),
      (Reno.popLoop cstate sample ack w acc).1 =
        ackKept (fun s : Reno.Segment => s.seq_id) ack w := by
  intro w
  induction w with
  | nil => intro acc; rfl
  | cons s rest ih =>
    intro acc
    rw [Reno.popLoop]
    by_cases h : s.seq_id < ack
    · rw [if_pos h, ih]
      unfold ackKept
      rw [List.dropWhile_cons_of_pos (by simpa using h)]
    · rw [if_neg h]
      unfold ackKept
      rw [List.dropWhile_cons_of_neg (by simpa using h)]

theorem vegas_popLoop_window (rtt : ℚ) (ack : Int)
    (dstate : Vegas.DistinguishedState) (dbytes : Int) (expected : ℚ) :
    ∀ (w : List Vegas.Segment) (acc : Vegas.PopAcc) r,
      Vegas.popLoop rtt ack dstate dbytes expected w acc = some r →
      r.1 = ackKept (fun s : Vegas.Segment => s.seq_id) ack w := by
  intro w
  induction w with
  | nil =>
    intro acc r h
    simp only [Vegas.popLoop] at h
    cases h
    rfl
  | cons s rest ih =>
    intro acc r h
    rw [Vegas.popLoop] at h
    by_cases hlt : s.seq_id < ack
    · rw [if_pos hlt] at h
      unfold ackKept
      rw [List.dropWhile_cons_of_pos (by simpa using hlt)]
      rcases hcs : Vegas.cwndStep dstate acc.curr_state expected
          acc.acutal_throughput acc.cwnd with _ | cwnd'
      · rw [hcs] at h
        exact absurd h (by simp)
      · rw [hcs] at h
        dsimp only at h
        by_cases hd : s.distinguished
        · rw [if_pos hd] at h
          by_cases he : dstate = Vegas.DistinguishedState.EVAL
          · rw [if_pos he] at h
            by_cases hz : rtt = 0
            · rw [if_pos hz] at h
              exact absurd h (by simp)
            · rw [if_neg hz] at h
              exact ih _ _ h
          · rw [if_neg he] at h
            exact ih _ _ h
        · rw [if_neg hd] at h
          exact ih _ _ h
    · rw [if_neg hlt] at h
      cases h
      unfold ackKept
      rw [List.dropWhile_cons_of_neg (by simpa using hlt)]

/-!
## C2: cumulative-ACK removal removes exactly the `seq_id < A` segments
-/

/-- C2 (confirmed). For each window-keeping variant, processing a
cumulative ACK `A` on a window in strictly increasing `seq_id` order
removes exactly the segments with `seq_id < A` (the popped head run
equals the `seq_id < A` filter), and afterwards no remaining window
segment has `seq_id < A`: stated for the Reno new-ACK branch, the Vegas
new-ACK branch and the fixed-window removal loop. -/
theorem c2_cumulative_ack (now tv : ℚ) (ack : Int) (st : Reno.St)
    (vst : Vegas.St) (w : List (Int × Nat))
    (hr : SeqSorted (fun s : Reno.Segment => s.seq_id) st.packets)
    (hv : SeqSorted (fun s : Vegas.Segment => s.seq_id) vst.packets)
    (hw : SeqSorted (fun s : Int × Nat => s.1) w) :
    ((Reno.newAck now tv ack st).1.packets =
        st.packets.filter (fun s => decide (¬ s.seq_id < ack)) ∧
      ackPopped (fun s : Reno.Segment => s.seq_id) ack st.packets =
        st.packets.filter (fun s => decide (s.seq_id < ack)) ∧
      ∀ s ∈ (Reno.newAck now tv ack st).1.packets, ¬ s.seq_id < ack) ∧
    (∀ vst', Vegas.newAck now tv ack vst = some vst' →
      vst'.packets =
        vst.packets.filter (fun s => decide (¬ s.seq_id < ack)) ∧
      ∀ s ∈ vst'.packets, ¬ s.seq_id < ack) ∧
    (Fw.ackRemove ack w = w.filter (fun s => decide (¬ s.1 < ack)) ∧
      ackPopped (fun s : Int × Nat => s.1) ack w =
        w.filter (fun s => decide (s.1 < ack)) ∧
      ∀ s ∈ Fw.ackRemove ack w, ¬ s.1 < ack) := by
  have hrk : (Reno.newAck now tv ack st).1.packets =
      ackKept (fun s : Reno.Segment => s.seq_id) ack st.packets := by
    unfold Reno.newAck
    exact reno_popLoop_window _ _ _ _ _
  refine ⟨⟨?_, ?_, ?_⟩, ?_, ?_, ?_, ?_⟩
  · rw [hrk]
    exact ackKept_eq_filter _ ack st.packets hr
  · exact ackPopped_eq_filter _ ack st.packets hr
  · rw [hrk]
    exact ackKept_no_low _ ack st.packets hr
  · intro vst' h
    unfold Vegas.newAck at h
    by_cases hb : Vegas.baseUpdate vst.base_RTT (now - tv) = 0
    · rw [if_pos hb] at h
      exact absurd h (by simp)
    · rw [if_neg hb] at h
      dsimp only at h
      rcases hp : Vegas.popLoop (now - tv) ack vst.distinguished_state
          vst.distinguished_bytes
          ((pyInt vst.cwnd : ℚ) / Vegas.baseUpdate vst.base_RTT (now - tv))
          vst.packets
          { cwnd := vst.cwnd, curr_state := vst.curr_state,
            packets_in_transit := vst.packets_in_transit,
            packet_delays := vst.packet_delays,
            distinguished_out := vst.distinguished_out,
            acutal_throughput := vst.acutal_throughput,
            seqVar := none, timeVar := none } with _ | r
      · rw [hp] at h
        exact absurd h (by simp)
      · rw [hp] at h
        dsimp only at h
        cases h
        have := vegas_popLoop_window _ _ _ _ _ _ _ _ hp
        dsimp only
        rw [this]
        constructor
        · exact ackKept_eq_filter _ ack vst.packets hv
        · exact ackKept_no_low _ ack vst.packets hv
  · exact ackKept_eq_filter _ ack w hw
  · exact ackPopped_eq_filter _ ack w hw
  · exact ackKept_no_low _ ack w hw

/-- C2 (witness). The theorem applied to concrete two-segment windows
and ACK 1020: the first segment is removed, the second stays. -/
theorem c2_cumulative_ack_witness :
    (Reno.newAck 3 1 1020
      { seq_id_global := 2040, curr_state := Reno.State.SLOW_START,
        cwnd := 2, ssthresh := 64, duplicate_acks := 0, last_ack := -1,
        timeout := 1, estimated_RTT := 0, packets_in_transit := 2,
        packets := [
          { seq_id := 0, send_time := some 1, payload := [5],
            in_transit := true },
          { seq_id := 1020, send_time := some 2, payload := [6],
            in_transit := true }],
        total_bytes := 2048, packet_delays := [] }).1.packets =
      [{ seq_id := 1020, send_time := some 2, payload := [6],
         in_transit := true }] ∧
    Fw.ackRemove 1020 [(0, 1020), (1020, 1020)] = [(1020, 1020)] := by
  have h := c2_cumulative_ack 3 1 1020
    { seq_id_global := 2040, curr_state := Reno.State.SLOW_START,
      cwnd := 2, ssthresh := 64, duplicate_acks := 0, last_ack := -1,
      timeout := 1, estimated_RTT := 0, packets_in_transit := 2,
      packets := [
        { seq_id := 0, send_time := some 1, payload := [5],
          in_transit := true },
        { seq_id := 1020, send_time := some 2, payload := [6],
          in_transit := true }],
      total_bytes := 2048, packet_delays := [] }
    { seq_id_global := 0, curr_state := Vegas.State.SLOW_START,
      cwnd := 1, duplicate_acks := 0, last_ack := -1, timeout := 1,
      packets_in_transit := 0, duplicate_flag := false, base_RTT := some 1,
      estimated_RTT := 0, expected_throughput := none,
      acutal_throughput := none, distinguished_bytes := 0,
      distinguished_out := false,
      distinguished_state := Vegas.DistinguishedState.CHANGE,
      packets := [], total_bytes := 0, packet_delays := [] }
    [(0, 1020), (1020, 1020)]
    (by decide) (by decide) (by decide)
  refine ⟨?_, ?_⟩
  · rw [h.1.1]
    decide
  · rw [h.2.2.1]
    decide

/-!
## C3: the `cwnd ≥ 1` and `ssthresh ≥ 1` invariants
-/

/-- C3 (counterexample). The Vegas new-ACK branch, on a window whose
head is acknowledged while the CHANGE-phase decay fires
(`|expected - acutal| = 49 > BETA`), updates
`cwnd = 1 - (1/1 - 1/8) = 1/8 < 1`, refuting `cwnd ≥ 1` after every
operation of every variant. -/
theorem c3_vegas_cwnd_counterexample :
    (Vegas.newAck 1 0 1020 c3VegasSt).map (fun s => s.cwnd) =
      some (1 / 8 : ℚ) ∧ ¬ (1 : ℚ) ≤ 1 / 8 := by
  constructor
  · norm_num [Vegas.newAck, Vegas.baseUpdate, Vegas.popLoop,
      Vegas.cwndStep, pyInt, c3VegasSt, Vegas.ALPHA, Vegas.BETA]
    simp
  · norm_num

/-- C3 (amended). In the Reno sender every operation of the main loop -
window fill, send pass, new-ACK handling, duplicate-ACK reaction,
receive-timeout and head-timeout reaction, `cwnd` rounding and the
slow-start exit - preserves `cwnd ≥ 1` and `ssthresh ≥ 1` (the
stop-and-wait and fixed-window senders have no congestion-window
variable); in the Vegas sender the congestion-avoidance decay step can
take `cwnd` below 1, so the claim fails there. -/
theorem c3_cwnd_ssthresh_invariant (st : Reno.St) (now tv : ℚ) (ack : Int)
    (file : List Nat) (vars : Reno.SendVars)
    (h1 : 1 ≤ st.cwnd) (h2 : 1 ≤ st.ssthresh) :
    (1 ≤ (Reno.timeout_reset st).cwnd ∧
      1 ≤ (Reno.timeout_reset st).ssthresh) ∧
    (1 ≤ (Reno.dupAck st).cwnd ∧ 1 ≤ (Reno.dupAck st).ssthresh) ∧
    (1 ≤ (Reno.newAck now tv ack st).1.cwnd ∧
      1 ≤ (Reno.newAck now tv ack st).1.ssthresh) ∧
    (1 ≤ (Reno.roundCwnd st).cwnd ∧ 1 ≤ (Reno.roundCwnd st).ssthresh) ∧
    (1 ≤ (Reno.snapToAvoidance st).cwnd ∧
      1 ≤ (Reno.snapToAvoidance st).ssthresh) ∧
    (1 ≤ (Reno.recvTimeout st).1.cwnd ∧
      1 ≤ (Reno.recvTimeout st).1.ssthresh) ∧
    (1 ≤ (Reno.step3 now st).cwnd ∧ 1 ≤ (Reno.step3 now st).ssthresh) ∧
    (1 ≤ (Reno.step1 now st vars).1.cwnd ∧
      1 ≤ (Reno.step1 now st vars).1.ssthresh) ∧
    (1 ≤ (Reno.fill file st).2.cwnd ∧
      1 ≤ (Reno.fill file st).2.ssthresh) := by
  have hreset : 1 ≤ (Reno.timeout_reset st).cwnd ∧
      1 ≤ (Reno.timeout_reset st).ssthresh := by
    unfold Reno.timeout_reset
    exact ⟨le_refl 1, le_max_right _ 1⟩
  refine ⟨hreset, ?_, ?_, ?_, ?_, ?_, ?_, ?_, ?_⟩
  · rw [reno_dupAck_eq]
    split
    · exact ⟨le_max_right _ 1, le_max_right _ 1⟩
    · exact ⟨h1, h2⟩
  · exact ⟨reno_popLoop_cwnd_ge_one _ _ _ _ _ h1, h2⟩
  · unfold Reno.roundCwnd
    split
    · constructor
      · dsimp only
        have hq : (0 : ℚ) ≤ st.cwnd + 1 / 10 := by linarith
        rw [pyInt_of_nonneg hq]
        have hfl : (1 : Int) ≤ ⌊st.cwnd + 1 / 10⌋ := by
          rw [Int.le_floor]
          push_cast
          linarith
        exact_mod_cast hfl
      · exact h2
    · exact ⟨h1, h2⟩
  · unfold Reno.snapToAvoidance
    split
    · exact ⟨h2, h2⟩
    · exact ⟨h1, h2⟩
  · unfold Reno.recvTimeout
    split
    · exact ⟨h1, h2⟩
    · exact hreset
  · unfold Reno.step3
    rcases hp : st.packets with _ | ⟨s, rest⟩
    · exact ⟨h1, h2⟩
    · dsimp only
      rcases hs : s.send_time with _ | t
      · exact ⟨h1, h2⟩
      · dsimp only
        by_cases hto : st.timeout ≤ now - t
        · rw [if_pos hto]
          exact hreset
        · rw [if_neg hto]
          exact ⟨h1, h2⟩
  · unfold Reno.step1
    split
    · exact ⟨h1, h2⟩
    · split
      · exact ⟨h1, h2⟩
      · exact ⟨h1, h2⟩
  · rcases reno_fill_frame file st with ⟨hc, hs⟩
    rw [hc, hs]
    exact ⟨h1, h2⟩

/-- C3 (witness). The amended invariant instantiated at a concrete Reno
state with `cwnd = 3`, `ssthresh = 64`. -/
theorem c3_cwnd_ssthresh_invariant_witness :
    1 ≤ (Reno.timeout_reset
      { seq_id_global := 0, curr_state := Reno.State.SLOW_START,
        cwnd := 3, ssthresh := 64, duplicate_acks := 0, last_ack := -1,
        timeout := 1, estimated_RTT := 0, packets_in_transit := 0,
        packets := [], total_bytes := 0,
        packet_delays := [] }).ssthresh ∧
    1 ≤ (Reno.newAck 2 1 1020
      { seq_id_global := 0, curr_state := Reno.State.SLOW_START,
        cwnd := 3, ssthresh := 64, duplicate_acks := 0, last_ack := -1,
        timeout := 1, estimated_RTT := 0, packets_in_transit := 0,
        packets := [], total_bytes := 0, packet_delays := [] }).1.cwnd := by
  have h := c3_cwnd_ssthresh_invariant
    { seq_id_global := 0, curr_state := Reno.State.SLOW_START,
      cwnd := 3, ssthresh := 64, duplicate_acks := 0, last_ack := -1,
      timeout := 1, estimated_RTT := 0, packets_in_transit := 0,
      packets := [], total_bytes := 0, packet_delays := [] }
    2 1 1020 [] { seqVar := none, timeVar := none, emitted := [] }
    (by norm_num) (by norm_num)
  exact ⟨h.1.2, h.2.2.1.1⟩

/-!
## C4: Reno timeout reaction
-/

/-- C4 (counterexample). After a timeout (`timeout_reset()` has set
TIMEOUT, `cwnd = 1`, `packets_in_transit = 0`) the next send pass over
a two-segment all-in-transit window emits only the head segment
(seq 0) - the `cwnd = 1` cap breaks the loop after one send and the
TIMEOUT state is cleared on that first send - refuting that it
retransmits every segment in the window. -/
theorem c4_retransmit_all_counterexample :
    (Reno.step1 5 c4RenoSt noVars).2.1.emitted = [(0, 1)] ∧
    c4RenoSt.packets.length = 2 := by
  constructor
  · norm_num [Reno.step1, Reno.sendLoop, pyInt, c4RenoSt, noVars]
    simp
  · decide

/-- C4 (amended). On a receive-timeout outside SENDING_EOF or a
head-segment age past `timeout`, the Reno controller runs
`timeout_reset()`: `ssthresh = max(cwnd/2, 1)`, `cwnd = 1`,
`packets_in_transit = 0`, `state = TIMEOUT`.  On the next send
iteration it returns the state to SLOW_START but retransmits only the
head segment of the window (the first send flips TIMEOUT off and the
`cwnd = 1` cap then stops the loop), not every segment. -/
theorem c4_timeout_reaction (st : Reno.St) (now : ℚ)
    (vars : Reno.SendVars) (s : Reno.Segment) (rest : List Reno.Segment) :
    ((Reno.timeout_reset st).ssthresh = max ((⌊st.cwnd / 2⌋ : Int) : ℚ) 1 ∧
      (Reno.timeout_reset st).cwnd = 1 ∧
      (Reno.timeout_reset st).packets_in_transit = 0 ∧
      (Reno.timeout_reset st).curr_state = Reno.State.TIMEOUT) ∧
    (st.curr_state ≠ Reno.State.SENDING_EOF →
      Reno.recvTimeout st = (Reno.timeout_reset st, false)) ∧
    (∀ t, st.packets = s :: rest → s.send_time = some t →
      st.timeout ≤ now - t → Reno.step3 now st = Reno.timeout_reset st) ∧
    (st.curr_state = Reno.State.TIMEOUT → st.cwnd = 1 →
      st.packets_in_transit = 0 → st.packets = s :: rest →
      (Reno.step1 now st vars).1.curr_state = Reno.State.SLOW_START ∧
      (Reno.step1 now st vars).2.1.emitted =
        vars.emitted ++ [(s.seq_id, s.payload.length)] ∧
      (Reno.step1 now st vars).1.packets =
        { s with send_time := some (s.send_time.getD now),
                 in_transit := true } :: rest ∧
      (Reno.step1 now st vars).1.packets_in_transit = 1) := by
  refine ⟨⟨rfl, rfl, rfl, rfl⟩, ?_, ?_, ?_⟩
  · intro h
    unfold Reno.recvTimeout
    rw [if_neg h]
  · intro t hpkts hst hto
    unfold Reno.step3
    rw [hpkts]
    dsimp only
    rw [hst]
    dsimp only
    rw [if_pos hto]
  · intro hstate hcwnd hpit hpkts
    have hpy : pyInt st.cwnd = 1 := by
      rw [hcwnd]
      norm_num [pyInt]
    have hg : st.packets ≠ [] ∧
        0 < pyInt st.cwnd - st.packets_in_transit := by
      constructor
      · rw [hpkts]
        simp
      · rw [hpy, hpit]
        norm_num
    unfold Reno.step1
    rw [if_pos hg, hpkts, hpy, hpit, Reno.sendLoop]
    rw [if_pos (Or.inr hstate), if_pos hstate]
    norm_num

/-- C4 (witness). The amended theorem at the concrete post-timeout
state: the pass emits the head (seq 0) only and resumes SLOW_START. -/
theorem c4_timeout_reaction_witness :
    (Reno.timeout_reset c4RenoSt).cwnd = 1 ∧
    (Reno.step1 5 c4RenoSt noVars).1.curr_state = Reno.State.SLOW_START ∧
    (Reno.step1 5 c4RenoSt noVars).2.1.emitted = [] ++ [(0, 1)] ∧
    (Reno.step1 5 c4RenoSt noVars).1.packets_in_transit = 1 := by
  have h := c4_timeout_reaction c4RenoSt 5 noVars
    { seq_id := 0, send_time := some 1, payload := [5], in_transit := true }
    [{ seq_id := 1020, send_time := some 2, payload := [6],
       in_transit := true }]
  have h4 := h.2.2.2 rfl rfl rfl rfl
  exact ⟨h.1.2.1, h4.1, h4.2.1, h4.2.2.2⟩

/-!
## C5: the RTT sample and the leftover `send_time` loop variable
-/

theorem reno_sendLoop_all_transit (now : ℚ) (cwndI : Int) :
    ∀ (w : List Reno.Segment) (cstate : Reno.State) (pit : Int)
      (vars : Reno.SendVars) (hne : w ≠ []),
      (∀ s ∈ w, s.in_transit = true) →
      cstate ≠ Reno.State.TIMEOUT → pit ≠ cwndI →
      Reno.sendLoop now cwndI w cstate pit vars =
        (w, cstate, pit,
          { vars with seqVar := some ((w.getLast hne).seq_id),
                      timeVar := some ((w.getLast hne).send_time) }) := by
  intro w
  induction w with
  | nil => intro _ _ _ hne _ _ _; exact absurd rfl hne
  | cons s rest ih =>
    intro cstate pit vars hne hall hstate hpit
    rw [Reno.sendLoop]
    have hs : s.in_transit = true := hall s (List.mem_cons_self s rest)
    have hcond : ¬ (s.in_transit = false ∨ cstate = Reno.State.TIMEOUT) := by
      rintro (h | h)
      · rw [hs] at h
        simp at h
      · exact hstate h
    rw [if_neg hcond, if_neg hpit]
    by_cases hrne : rest = []
    · subst hrne
      rw [Reno.sendLoop]
      simp
    · dsimp only
      rw [ih cstate pit _ hrne
        (fun x hx => hall x (List.mem_cons_of_mem s hx)) hstate hpit]
      have hgl : (s :: rest).getLast hne = rest.getLast hrne :=
        List.getLast_cons hrne
      rw [hgl]

theorem vegas_sendLoop_all_transit (now : ℚ) (cwndI : Int) :
    ∀ (w : List Vegas.Segment) (acc : Vegas.SendAcc) (hne : w ≠ []),
      (∀ s ∈ w, s.in_transit = true) →
      acc.curr_state ≠ Vegas.State.TIMEOUT →
      acc.packets_in_transit ≠ cwndI →
      Vegas.sendLoop now cwndI w acc =
        (w, { acc with seqVar := some ((w.getLast hne).seq_id),
                       timeVar := some ((w.getLast hne).send_time) }) := by
  intro w
  induction w with
  | nil => intro _ hne _ _ _; exact absurd rfl hne
  | cons s rest ih =>
    intro acc hne hall hstate hpit
    rw [Vegas.sendLoop]
    have hs : s.in_transit = true := hall s (List.mem_cons_self s rest)
    have hcond : ¬ (s.in_transit = false ∨
        acc.curr_state = Vegas.State.TIMEOUT) := by
      rintro (h | h)
      · rw [hs] at h
        simp at h
      · exact hstate h
    rw [if_neg hcond, if_neg hpit]
    by_cases hrne : rest = []
    · subst hrne
      rw [Vegas.sendLoop]
      simp
    · dsimp only
      rw [ih { acc with seqVar := some s.seq_id, timeVar := some s.send_time } hrne
        (fun x hx => hall x (List.mem_cons_of_mem s hx)) hstate hpit]
      have hgl : (s :: rest).getLast hne = rest.getLast hrne :=
        List.getLast_cons hrne
      rw [hgl]

theorem reno_popLoop_delays (cstate : Reno.State) (sample : ℚ)
    (ack : Int) : ∀ (w : List Reno.Segment) (acc : Reno.PopAcc),
    (Reno.popLoop cstate sample ack w acc).2.packet_delays =
      acc.packet_delays ++ List.replicate
        (ackPopped (fun s : Reno.Segment => s.seq_id) ack w).length
        sample := by
  intro w
  induction w with
  | nil => intro acc; simp [Reno.popLoop, ackPopped]
  | cons s rest ih =>
    intro acc
    rw [Reno.popLoop]
    by_cases h : s.seq_id < ack
    · rw [if_pos h, ih]
      unfold ackPopped
      rw [List.takeWhile_cons_of_pos (by simpa using h)]
      simp [List.replicate_succ]
    · rw [if_neg h]
      unfold ackPopped
      rw [List.takeWhile_cons_of_neg (by simpa using h)]
      simp

/-- C5 (counterexample). With window head sent at time 5 and a fresh
second segment sent by the pass at time 10, the leftover `send_time`
variable after the send pass is 10, so the sample for an ACK received
at time 11 is `11 - 10 = 1`, while the elapsed time since the head
segment's `send_time` is `11 - 5 = 6`: the sample is not measured from
the head segment. -/
theorem c5_rtt_sample_counterexample :
    (Reno.sendLoop 10 2 c5Window Reno.State.SLOW_START 1
      noVars).2.2.2.timeVar = some (some 10) ∧
    c5Window.head?.map (fun s => s.send_time) = some (some 5) ∧
    (11 : ℚ) - 10 ≠ 11 - 5 := by
  refine ⟨?_, by decide, by norm_num⟩
  norm_num [Reno.sendLoop, c5Window, noVars]
  simp

/-- C5 (amended). In the Reno and Vegas senders the RTT sample of the
new-ACK branch is `now - tv` where `tv` is the leftover `send_time`
loop variable of the preceding loops, not the head segment's
`send_time`: when every window segment is in transit (and the pass
neither sends nor breaks), `tv` is the `send_time` of the LAST window
segment; the sample `now2 - tv` is then what enters the smoothed-RTT
update and is recorded once per removed segment. -/
theorem c5_rtt_sample_leftover (now now2 tv : ℚ) (cwndI ack : Int)
    (st : Reno.St) (w : List Reno.Segment) (cstate : Reno.State)
    (pit : Int) (vars : Reno.SendVars) (vw : List Vegas.Segment)
    (vacc : Vegas.SendAcc) (vst vst' : Vegas.St) (hne : w ≠ [])
    (vhne : vw ≠ [])
    (hall : ∀ s ∈ w, s.in_transit = true)
    (hstate : cstate ≠ Reno.State.TIMEOUT) (hpit : pit ≠ cwndI)
    (vhall : ∀ s ∈ vw, s.in_transit = true)
    (vhstate : vacc.curr_state ≠ Vegas.State.TIMEOUT)
    (vhpit : vacc.packets_in_transit ≠ cwndI) :
    (Reno.sendLoop now cwndI w cstate pit vars).2.2.2.timeVar =
      some ((w.getLast hne).send_time) ∧
    (Vegas.sendLoop now cwndI vw vacc).2.timeVar =
      some ((vw.getLast vhne).send_time) ∧
    (Reno.newAck now2 tv ack st).1.estimated_RTT =
      Reno.ALPHA * st.estimated_RTT + (1 - Reno.ALPHA) * (now2 - tv) ∧
    (Reno.newAck now2 tv ack st).1.packet_delays =
      st.packet_delays ++ List.replicate
        (ackPopped (fun s : Reno.Segment => s.seq_id) ack
          st.packets).length (now2 - tv) ∧
    (Vegas.newAck now2 tv ack vst = some vst' →
      vst'.estimated_RTT =
        Vegas.GAMMA * vst.estimated_RTT +
          (1 - Vegas.GAMMA) * (now2 - tv)) := by
  refine ⟨?_, ?_, ?_, ?_, ?_⟩
  · rw [reno_sendLoop_all_transit now cwndI w cstate pit vars hne hall
      hstate hpit]
  · rw [vegas_sendLoop_all_transit now cwndI vw vacc vhne vhall
      vhstate vhpit]
  · unfold Reno.newAck
    rfl
  · unfold Reno.newAck
    exact reno_popLoop_delays _ _ _ _ _
  · intro h
    unfold Vegas.newAck at h
    by_cases hb : Vegas.baseUpdate vst.base_RTT (now2 - tv) = 0
    · rw [if_pos hb] at h
      exact absurd h (by simp)
    · rw [if_neg hb] at h
      dsimp only at h
      rcases hp : Vegas.popLoop (now2 - tv) ack vst.distinguished_state
          vst.distinguished_bytes
          ((pyInt vst.cwnd : ℚ) /
            Vegas.baseUpdate vst.base_RTT (now2 - tv)) vst.packets
          { cwnd := vst.cwnd, curr_state := vst.curr_state,
            packets_in_transit := vst.packets_in_transit,
            packet_delays := vst.packet_delays,
            distinguished_out := vst.distinguished_out,
            acutal_throughput := vst.acutal_throughput,
            seqVar := none, timeVar := none } with _ | r
      · rw [hp] at h
        exact absurd h (by simp)
      · rw [hp] at h
        dsimp only at h
        cases h
        rfl

/-- C5 (witness). The amended theorem at the concrete fully-in-transit
windows: the leftover variable holds the LAST segment's send time 6,
and an ACK at time 11 yields the sample `11 - 6`. -/
theorem c5_rtt_sample_leftover_witness :
    (Reno.sendLoop 10 5 c5AllTransit Reno.State.SLOW_START 2
      noVars).2.2.2.timeVar = some (some 6) ∧
    (Vegas.sendLoop 10 5 c5VegasAllTransit c5VegasAcc).2.timeVar =
      some (some 6) ∧
    (Reno.newAck 11 6 2040 c5RenoSt).1.estimated_RTT =
      Reno.ALPHA * c5RenoSt.estimated_RTT +
        (1 - Reno.ALPHA) * (11 - 6) := by
  have h := c5_rtt_sample_leftover 10 11 6 5 2040 c5RenoSt c5AllTransit
    Reno.State.SLOW_START 2 noVars c5VegasAllTransit c5VegasAcc
    c3VegasSt c3VegasSt (by decide) (by decide) (by decide) (by decide)
    (by decide) (by decide) (by decide) (by decide)
  refine ⟨?_, ?_, h.2.2.1⟩
  · rw [h.1]
    rfl
  · rw [h.2.1]
    rfl

/-!
## C6: the FINACK datagram and the stale `seq_id` loop variable
-/

/-- C6 (code bug, Reno). After the final ACK 3060 empties the window,
the removal loop leaves the module-level `seq_id` variable at 2040 (the
start offset of the last popped segment), and the next send iteration
builds the FINACK from that loop variable - line 90 uses `seq_id`, not
`seq_id_global` - so the emitted datagram encodes 2040 instead of the
cumulative offset 3060 claimed by the specification (whose design notes
flag exactly this as a latent bug). -/
theorem c6_finack_uses_stale_seq :
    (Reno.newAck 5 3 3060 c6RenoSt).2.seqVar = some 2040 ∧
    (Reno.newAck 5 3 3060 c6RenoSt).1.packets = [] ∧
    (Reno.newAck 5 3 3060 c6RenoSt).1.curr_state =
      Reno.State.SENDING_EOF ∧
    (Reno.newAck 5 3 3060 c6RenoSt).1.seq_id_global = 3060 ∧
    (Reno.step1 6 (Reno.newAck 5 3 3060 c6RenoSt).1
      { seqVar := some 2040, timeVar := some (some 3),
        emitted := [] }).2.2 =
      some (some (toBytesBE4 2040 ++ finackBytes)) ∧
    toBytesBE4 2040 ++ finackBytes ≠ toBytesBE4 3060 ++ finackBytes := by
  refine ⟨?_, ?_, ?_, ?_, ?_, by decide⟩
  · norm_num [Reno.newAck, Reno.popLoop, c6RenoSt]
  · norm_num [Reno.newAck, Reno.popLoop, c6RenoSt]
  · norm_num [Reno.newAck, Reno.popLoop, c6RenoSt]
  · norm_num [Reno.newAck, Reno.popLoop, c6RenoSt]
  · norm_num [Reno.newAck, Reno.popLoop, Reno.step1, c6RenoSt]

/-!
## C7: Vegas `base_RTT` monotonicity
-/

/-- C7 (counterexample). A `base_RTT` that was set below the 0.0001 s
noise threshold (here `1/20000`) falls into the `base_RTT < 0.0001`
branch and is overwritten by the next sample even when that sample is
larger (here 1), so `base_RTT`, once set, is not monotonically
non-increasing. -/
theorem c7_base_rtt_counterexample :
    Vegas.baseUpdate (some (1 / 20000)) 1 = 1 ∧
    (1 / 20000 : ℚ) < 1 := by
  constructor
  · norm_num [Vegas.baseUpdate]
  · norm_num

/-- C7 (amended). Once `base_RTT` holds a value of at least 0.0001 s,
every new-ACK update is monotone: the updated value never exceeds the
old one and stays at least 0.0001 s (so it remains monotone for the
rest of the run); a `base_RTT` below 0.0001 s is treated like an unset
one and may be replaced by a larger sample.  The Vegas new-ACK branch
stores exactly `baseUpdate base_RTT packet_RTT`. -/
theorem c7_base_rtt_monotone (b sample now tv : ℚ) (ack : Int)
    (vst : Vegas.St) (h : 1 / 10000 ≤ b) :
    (Vegas.baseUpdate (some b) sample ≤ b ∧
      1 / 10000 ≤ Vegas.baseUpdate (some b) sample) ∧
    (∀ vst', Vegas.newAck now tv ack vst = some vst' →
      vst'.base_RTT = some (Vegas.baseUpdate vst.base_RTT (now - tv))) := by
  constructor
  · unfold Vegas.baseUpdate
    dsimp only
    rw [if_neg (not_lt.mpr h)]
    split
    · next hc => exact ⟨le_of_lt hc.1, le_of_lt hc.2⟩
    · exact ⟨le_refl b, h⟩
  · intro vst' hsome
    unfold Vegas.newAck at hsome
    by_cases hb : Vegas.baseUpdate vst.base_RTT (now - tv) = 0
    · rw [if_pos hb] at hsome
      exact absurd hsome (by simp)
    · rw [if_neg hb] at hsome
      dsimp only at hsome
      rcases hp : Vegas.popLoop (now - tv) ack vst.distinguished_state
          vst.distinguished_bytes
          ((pyInt vst.cwnd : ℚ) /
            Vegas.baseUpdate vst.base_RTT (now - tv)) vst.packets
          { cwnd := vst.cwnd, curr_state := vst.curr_state,
            packets_in_transit := vst.packets_in_transit,
            packet_delays := vst.packet_delays,
            distinguished_out := vst.distinguished_out,
            acutal_throughput := vst.acutal_throughput,
            seqVar := none, timeVar := none } with _ | r
      · rw [hp] at hsome
        exact absurd hsome (by simp)
      · rw [hp] at hsome
        dsimp only at hsome
        cases hsome
        rfl

/-- C7 (witness). The amended theorem at `base_RTT = 1/2` and a smaller
sample `1/4`: the update lowers `base_RTT` and keeps it above the
threshold. -/
theorem c7_base_rtt_monotone_witness :
    Vegas.baseUpdate (some (1 / 2)) (1 / 4) ≤ 1 / 2 ∧
    (1 / 10000 : ℚ) ≤ Vegas.baseUpdate (some (1 / 2)) (1 / 4) := by
  have h := c7_base_rtt_monotone (1 / 2) (1 / 4) 1 0 0 c3VegasSt
    (by norm_num)
  exact h.1

/-!
## C10: Vegas duplicate ACKs only count
-/

theorem vegas_recvAckIter_dup (now tv : ℚ) (ack : Int) :
    ∀ (n : Nat) (st : Vegas.St), ack = st.last_ack →
      Vegas.recvAckIter now tv ack n st =
        some { st with duplicate_acks := st.duplicate_acks + n } := by
  intro n
  induction n with
  | zero => intro st _; rfl
  | succ n ih =>
    intro st h
    rw [Vegas.recvAckIter]
    unfold Vegas.recvAck
    rw [if_pos h]
    dsimp only
    rw [ih { st with duplicate_acks := st.duplicate_acks + 1 } h]
    have harith : st.duplicate_acks + 1 + n = st.duplicate_acks + (n + 1) := by
      omega
    rw [harith]

/-- C10 (confirmed). In the Vegas sender a duplicate ACK
(`ack_id == last_ack`) only increments `duplicate_acks`: a single
duplicate produces exactly the state with `duplicate_acks + 1`, `n`
consecutive duplicates produce exactly `duplicate_acks + n`, and every
other component - `cwnd`, `curr_state`, the window with its in-transit
and distinguished flags, `packets_in_transit`, RTT and throughput
state, metrics - is left unchanged; Vegas has no fast retransmit. -/
theorem c10_vegas_dup_ack_frame (now tv : ℚ) (ack : Int) (st : Vegas.St)
    (n : Nat) (h : ack = st.last_ack) :
    Vegas.recvAck now tv ack st =
      some { st with duplicate_acks := st.duplicate_acks + 1 } ∧
    Vegas.recvAckIter now tv ack n st =
      some { st with duplicate_acks := st.duplicate_acks + n } ∧
    (∀ st', Vegas.recvAck now tv ack st = some st' →
      st'.cwnd = st.cwnd ∧ st'.curr_state = st.curr_state ∧
      st'.packets = st.packets ∧
      st'.packets_in_transit = st.packets_in_transit ∧
      st'.base_RTT = st.base_RTT ∧
      st'.estimated_RTT = st.estimated_RTT ∧
      st'.expected_throughput = st.expected_throughput ∧
      st'.acutal_throughput = st.acutal_throughput ∧
      st'.distinguished_out = st.distinguished_out ∧
      st'.distinguished_state = st.distinguished_state ∧
      st'.distinguished_bytes = st.distinguished_bytes ∧
      st'.packet_delays = st.packet_delays ∧
      st'.total_bytes = st.total_bytes ∧ st'.timeout = st.timeout ∧
      st'.last_ack = st.last_ack ∧
      st'.duplicate_acks = st.duplicate_acks + 1) := by
  have hsingle : Vegas.recvAck now tv ack st =
      some { st with duplicate_acks := st.duplicate_acks + 1 } := by
    unfold Vegas.recvAck
    rw [if_pos h]
  refine ⟨hsingle, vegas_recvAckIter_dup now tv ack n st h, ?_⟩
  intro st' hst'
  rw [hsingle] at hst'
  cases hst'
  exact ⟨rfl, rfl, rfl, rfl, rfl, rfl, rfl, rfl, rfl, rfl, rfl, rfl,
    rfl, rfl, rfl, rfl⟩

/-- C10 (witness). Two consecutive duplicate ACKs carrying -1 at the
concrete Vegas state leave everything but the duplicate counter
unchanged. -/
theorem c10_vegas_dup_ack_frame_witness :
    Vegas.recvAck 1 0 (-1) c3VegasSt =
      some { c3VegasSt with
        duplicate_acks := c3VegasSt.duplicate_acks + 1 } ∧
    Vegas.recvAckIter 1 0 (-1) 2 c3VegasSt =
      some { c3VegasSt with
        duplicate_acks := c3VegasSt.duplicate_acks + 2 } := by
  have h := c10_vegas_dup_ack_frame 1 0 (-1) c3VegasSt 2 (by decide)
  exact ⟨h.1, h.2.1⟩

/-!
## C8: the `total_bytes` accounting
-/

theorem chunkCount_nil : chunkCount [] = 0 := by
  rw [chunkCount, if_pos rfl]

theorem saw_run_data_eq : ∀ (n : Nat) (file : List Nat) (st : Saw.St),
    file.length ≤ n → st.curr_state = Saw.State.SENDING_DATA →
    Saw.run file st =
      { seq_id := st.seq_id + file.length,
        curr_state := Saw.State.COMPLETE,
        total_bytes := st.total_bytes + PACKET_SIZE * chunkCount file,
        packet_delays := st.packet_delays + chunkCount file + 1,
        tick := st.tick + chunkCount file + 2,
        end_tick := st.tick + chunkCount file + 2 } := by
  intro n
  induction n with
  | zero =>
    intro file st hlen hst
    have hfile : file = [] := List.length_eq_zero.mp (Nat.le_zero.mp hlen)
    subst hfile
    rw [Saw.run, hst]
    dsimp only
    rw [if_pos (List.take_nil)]
    simp [chunkCount_nil]
  | succ n ih =>
    intro file st hlen hst
    by_cases hfile : file = []
    · subst hfile
      rw [Saw.run, hst]
      dsimp only
      rw [if_pos (List.take_nil)]
      simp [chunkCount_nil]
    · rw [Saw.run, hst]
      dsimp only
      have hch : ¬ List.take MESSAGE_SIZE file = [] := by
        rw [List.take_eq_nil_iff]
        push_neg
        exact ⟨by norm_num [MESSAGE_SIZE, PACKET_SIZE, SEQ_ID_SIZE], hfile⟩
      rw [if_neg hch]
      have hlen2 : (file.drop MESSAGE_SIZE).length ≤ n := by
        have hpos : 0 < file.length := List.length_pos.mpr hfile
        have hm : MESSAGE_SIZE = 1020 := rfl
        simp only [List.length_drop, hm]
        omega
      rw [ih (file.drop MESSAGE_SIZE)
        { seq_id := st.seq_id + ((List.take MESSAGE_SIZE file).length : Int),
          curr_state := Saw.State.SENDING_DATA,
          total_bytes := st.total_bytes + PACKET_SIZE,
          packet_delays := st.packet_delays + 1,
          tick := st.tick + 1,
          end_tick := st.end_tick } hlen2 rfl]
      have hcc : chunkCount file =
          1 + chunkCount (file.drop MESSAGE_SIZE) := by
        rw [chunkCount, if_neg hfile]
      have hlens : (List.take MESSAGE_SIZE file).length +
          (file.drop MESSAGE_SIZE).length = file.length := by
        simp only [List.length_take, List.length_drop]
        omega
      have hP : PACKET_SIZE = 1024 := rfl
      simp only [Saw.St.mk.injEq, hcc, hP]
      push_cast
      refine ⟨by omega, trivial, by omega, by omega, by omega, by omega⟩

theorem reno_fill_append_total (file : List Nat) (st : Reno.St) :
    ∃ new, (Reno.fill file st).2.packets = st.packets ++ new ∧
      (Reno.fill file st).2.total_bytes = st.total_bytes +
        (new.map (fun s => SEQ_ID_SIZE + s.payload.length)).sum := by
  induction file, st using Reno.fill.induct with
  | case1 file st hguard chunk hnil =>
    refine ⟨[], ?_, ?_⟩ <;>
      · rw [Reno.fill, if_pos hguard]
        simp only [show List.take MESSAGE_SIZE file = [] from hnil]
        simp
  | case2 file st hguard chunk hnil ih =>
    rcases ih with ⟨new, hp, ht⟩
    refine ⟨(⟨st.seq_id_global, none, List.take MESSAGE_SIZE file,
      false⟩ : Reno.Segment) :: new, ?_, ?_⟩
    · rw [Reno.fill, if_pos hguard]
      simp only [if_neg hnil]
      rw [hp]
      simp
    · rw [Reno.fill, if_pos hguard]
      simp only [if_neg hnil]
      rw [ht]
      dsimp only
      simp only [List.map_cons, List.sum_cons]
      have hceq : chunk = List.take MESSAGE_SIZE file := rfl
      rw [hceq]
      omega
  | case3 file st hguard =>
    refine ⟨[], ?_, ?_⟩ <;>
      · rw [Reno.fill, if_neg hguard]
        simp

theorem vegas_fill_append_total (file : List Nat) (st : Vegas.St) :
    ∃ new, (Vegas.fill file st).2.packets = st.packets ++ new ∧
      (Vegas.fill file st).2.total_bytes = st.total_bytes +
        (new.map (fun s => SEQ_ID_SIZE + s.payload.length)).sum := by
  induction file, st using Vegas.fill.induct with
  | case1 file st hguard chunk hnil =>
    refine ⟨[], ?_, ?_⟩ <;>
      · rw [Vegas.fill, if_pos hguard]
        simp only [show List.take MESSAGE_SIZE file = [] from hnil]
        simp
  | case2 file st hguard chunk hnil ih =>
    rcases ih with ⟨new, hp, ht⟩
    refine ⟨(⟨st.seq_id_global, none, List.take MESSAGE_SIZE file,
      false, false, none⟩ : Vegas.Segment) :: new, ?_, ?_⟩
    · rw [Vegas.fill, if_pos hguard]
      simp only [if_neg hnil]
      rw [hp]
      simp
    · rw [Vegas.fill, if_pos hguard]
      simp only [if_neg hnil]
      rw [ht]
      dsimp only
      simp only [List.map_cons, List.sum_cons]
      have hceq : chunk = List.take MESSAGE_SIZE file := rfl
      rw [hceq]
      omega
  | case3 file st hguard =>
    refine ⟨[], ?_, ?_⟩ <;>
      · rw [Vegas.fill, if_neg hguard]
        simp

theorem fw_fillAux_append_total : ∀ (cap : Nat) (file : List Nat)
    (st : Fw.St),
    ∃ new, (Fw.fillAux cap file st).2.window = st.window ++ new ∧
      (Fw.fillAux cap file st).2.total_bytes = st.total_bytes +
        (new.map (fun s : Int × Nat => SEQ_ID_SIZE + s.2)).sum := by
  intro cap
  induction cap with
  | zero =>
    intro file st
    exact ⟨[], by simp [Fw.fillAux], by simp [Fw.fillAux]⟩
  | succ cap ih =>
    intro file st
    rw [Fw.fillAux]
    by_cases hg : st.window.length < Fw.WINDOW_SIZE ∧
        st.curr_state = Fw.State.SENDING_DATA
    · rw [if_pos hg]
      dsimp only
      by_cases hch : List.take MESSAGE_SIZE file = []
      · rw [if_pos hch]
        exact ⟨[], by simp, by simp⟩
      · rw [if_neg hch]
        rcases ih (file.drop MESSAGE_SIZE)
          { st with
            window := st.window ++ [(st.seq_id,
              (List.take MESSAGE_SIZE file).length)]
            queue := st.queue ++ [st.seq_id +
              ((List.take MESSAGE_SIZE file).length : Int)]
            seq_id := st.seq_id +
              ((List.take MESSAGE_SIZE file).length : Int)
            total_bytes := st.total_bytes +
              (SEQ_ID_SIZE + (List.take MESSAGE_SIZE file).length) }
          with ⟨new, hp, ht⟩
        refine ⟨(st.seq_id, (List.take MESSAGE_SIZE file).length) ::
          new, ?_, ?_⟩
        · rw [hp]
          simp
        · rw [ht]
          simp
          omega
    · rw [if_neg hg]
      exact ⟨[], by simp, by simp⟩

theorem reno_step1_frame (now : ℚ) (st : Reno.St)
    (vars : Reno.SendVars) :
    (Reno.step1 now st vars).1.total_bytes = st.total_bytes ∧
    (Reno.step1 now st vars).1.packet_delays = st.packet_delays := by
  unfold Reno.step1
  split
  · exact ⟨rfl, rfl⟩
  · split
    · exact ⟨rfl, rfl⟩
    · exact ⟨rfl, rfl⟩

/-- C8 (counterexample). On a one-byte file, the Reno window fill sets
`total_bytes = 5` (the 4-byte header plus the 1-byte payload, counted
at segment creation), while the payload bytes emitted on the wire by
the subsequent send pass sum to 1: the counter does not equal the sum
of payload lengths per wire emission (and a retransmission adds
nothing, see the amended theorem). -/
theorem c8_total_bytes_counterexample :
    (Reno.fill oneByteFile renoInit).2.total_bytes = 5 ∧
    (((Reno.step1 9 (Reno.fill oneByteFile renoInit).2
        noVars).2.1.emitted).map (fun e => e.2)).sum = 1 ∧
    (5 : Nat) ≠ 1 := by
  have hfill : (Reno.fill oneByteFile renoInit).2 =
      { seq_id_global := 1, curr_state := Reno.State.SLOW_START,
        cwnd := 1, ssthresh := 64, duplicate_acks := 0, last_ack := -1,
        timeout := 1, estimated_RTT := 0, packets_in_transit := 0,
        packets := [{ seq_id := 0, send_time := none, payload := [7],
                      in_transit := false }],
        total_bytes := 5, packet_delays := [] } := by
    rw [Reno.fill]
    rw [if_pos (by norm_num [renoInit, Reno.State.value])]
    rw [if_neg (by norm_num [oneByteFile, MESSAGE_SIZE, PACKET_SIZE,
      SEQ_ID_SIZE])]
    rw [Reno.fill]
    rw [if_neg (by norm_num [renoInit, oneByteFile, MESSAGE_SIZE,
      PACKET_SIZE, SEQ_ID_SIZE])]
    norm_num [renoInit, oneByteFile, MESSAGE_SIZE, PACKET_SIZE,
      SEQ_ID_SIZE]
  rw [hfill]
  refine ⟨rfl, ?_, by norm_num⟩
  norm_num [Reno.step1, Reno.sendLoop, pyInt, noVars]

/-- C8 (amended). In the windowed senders (Reno, Vegas, fixed sliding
window) `total_bytes` counts each segment once, when it is created
during the window fill, and adds the full datagram length (4-byte
header plus payload); the send pass - first transmissions and
retransmissions alike - never changes it (the Reno send iteration is
shown state-neutral on the counter; the Vegas and fixed-window send
loops do not touch it at all).  The stop-and-wait sender adds the
constant `PACKET_SIZE = 1024` once per data chunk, regardless of the
chunk length or of retries. -/
theorem c8_total_bytes_accounting (file : List Nat) (st : Reno.St)
    (vst : Vegas.St) (fst : Fw.St) (sst : Saw.St) (now : ℚ)
    (vars : Reno.SendVars)
    (hs : sst.curr_state = Saw.State.SENDING_DATA) :
    (Reno.fill file st).2.total_bytes = st.total_bytes +
      (((Reno.fill file st).2.packets.drop st.packets.length).map
        (fun s => SEQ_ID_SIZE + s.payload.length)).sum ∧
    (Reno.step1 now st vars).1.total_bytes = st.total_bytes ∧
    (Vegas.fill file vst).2.total_bytes = vst.total_bytes +
      (((Vegas.fill file vst).2.packets.drop vst.packets.length).map
        (fun s => SEQ_ID_SIZE + s.payload.length)).sum ∧
    (Fw.fill file fst).2.total_bytes = fst.total_bytes +
      (((Fw.fill file fst).2.window.drop fst.window.length).map
        (fun s : Int × Nat => SEQ_ID_SIZE + s.2)).sum ∧
    (Saw.run file sst).total_bytes =
      sst.total_bytes + PACKET_SIZE * chunkCount file := by
  refine ⟨?_, (reno_step1_frame now st vars).1, ?_, ?_, ?_⟩
  · rcases reno_fill_append_total file st with ⟨new, hp, ht⟩
    rw [hp, ht, List.drop_left]
  · rcases vegas_fill_append_total file vst with ⟨new, hp, ht⟩
    rw [hp, ht, List.drop_left]
  · rcases fw_fillAux_append_total (Fw.WINDOW_SIZE - fst.window.length)
      file fst with ⟨new, hp, ht⟩
    unfold Fw.fill
    rw [hp, ht, List.drop_left]
  · rw [saw_run_data_eq file.length file sst (le_refl _) hs]

/-- C8 (witness). The amended accounting at the one-byte file and the
initial sender states. -/
theorem c8_total_bytes_accounting_witness :
    (Reno.fill oneByteFile renoInit).2.total_bytes =
      renoInit.total_bytes +
      (((Reno.fill oneByteFile renoInit).2.packets.drop
        renoInit.packets.length).map
        (fun s => SEQ_ID_SIZE + s.payload.length)).sum ∧
    (Vegas.fill oneByteFile vegasInit).2.total_bytes =
      vegasInit.total_bytes +
      (((Vegas.fill oneByteFile vegasInit).2.packets.drop
        vegasInit.packets.length).map
        (fun s => SEQ_ID_SIZE + s.payload.length)).sum ∧
    (Saw.run oneByteFile Saw.init).total_bytes =
      Saw.init.total_bytes + PACKET_SIZE * chunkCount oneByteFile := by
  have h := c8_total_bytes_accounting oneByteFile renoInit vegasInit
    Fw.init Saw.init 9 noVars rfl
  exact ⟨h.1, h.2.2.1, h.2.2.2.2⟩

/-!
## C9: closed-loop runs against the ideal peer
-/


theorem winAcks_append (w v : List (Int × Nat)) :
    winAcks (w ++ v) = winAcks w ++ winAcks v := by
  unfold winAcks
  exact List.map_append _ w v

theorem fw_fillAux_spec : ∀ (cap : Nat) (file : List Nat) (st : Fw.St),
    st.queue = winAcks st.window →
    (∀ s ∈ st.window, 1 ≤ s.2 ∧ s.1 + (s.2 : Int) ≤ st.seq_id) →
    List.Chain' winLe st.window →
    (Fw.fillAux cap file st).2.queue =
      winAcks (Fw.fillAux cap file st).2.window ∧
    (∀ s ∈ (Fw.fillAux cap file st).2.window,
      1 ≤ s.2 ∧ s.1 + (s.2 : Int) ≤ (Fw.fillAux cap file st).2.seq_id) ∧
    List.Chain' winLe (Fw.fillAux cap file st).2.window ∧
    (Fw.fillAux cap file st).2.window.length ≤ st.window.length + cap ∧
    chunkCount (Fw.fillAux cap file st).1 +
      (Fw.fillAux cap file st).2.window.length =
      chunkCount file + st.window.length ∧
    (st.window.length + cap = Fw.WINDOW_SIZE →
      st.curr_state = Fw.State.SENDING_DATA →
      ((Fw.fillAux cap file st).2.curr_state = Fw.State.SENDING_DATA ∧
        (Fw.fillAux cap file st).2.window.length = Fw.WINDOW_SIZE) ∨
      ((Fw.fillAux cap file st).2.curr_state = Fw.State.SENDING_EOF ∧
        (Fw.fillAux cap file st).1 = [])) ∧
    st.total_bytes ≤ (Fw.fillAux cap file st).2.total_bytes ∧
    ((Fw.fillAux cap file st).2.window = st.window →
      (Fw.fillAux cap file st) = (file, st) ∨ file = []) ∧
    ((Fw.fillAux cap file st).2.curr_state = st.curr_state ∨
      ((Fw.fillAux cap file st).2.curr_state = Fw.State.SENDING_EOF ∧
        (Fw.fillAux cap file st).1 = [])) ∧
    st.window.length ≤ (Fw.fillAux cap file st).2.window.length := by
  intro cap
  induction cap with
  | zero =>
    intro file st hq hb hc
    refine ⟨hq, hb, hc, by simp [Fw.fillAux], by simp [Fw.fillAux], ?_,
      by simp [Fw.fillAux], ?_, ?_, by simp [Fw.fillAux]⟩
    · intro hcap hd
      exact Or.inl ⟨by simp [Fw.fillAux, hd], by simp [Fw.fillAux]; omega⟩
    · intro _
      exact Or.inl rfl
    · exact Or.inl rfl
  | succ cap ih =>
    intro file st hq hb hc
    rw [Fw.fillAux]
    by_cases hg : st.window.length < Fw.WINDOW_SIZE ∧
        st.curr_state = Fw.State.SENDING_DATA
    · rw [if_pos hg]
      dsimp only
      by_cases hch : List.take MESSAGE_SIZE file = []
      · rw [if_pos hch]
        have hfile : file = [] := by
          rcases List.take_eq_nil_iff.mp hch with h | h
          · exact absurd h (by norm_num [MESSAGE_SIZE, PACKET_SIZE,
              SEQ_ID_SIZE])
          · exact h
        refine ⟨hq, hb, hc, by dsimp only; omega, rfl, ?_, le_refl _,
          ?_, ?_, le_refl _⟩
        · intro _ _
          exact Or.inr ⟨rfl, hfile⟩
        · intro _
          exact Or.inr hfile
        · exact Or.inr ⟨rfl, hfile⟩
      · rw [if_neg hch]
        have hfile : file ≠ [] := by
          intro h
          exact hch (by rw [h, List.take_nil])
        have hlen1 : 1 ≤ (List.take MESSAGE_SIZE file).length := by
          have := List.length_pos.mpr hch
          omega
        have hq1 : st.queue ++ [st.seq_id +
            ((List.take MESSAGE_SIZE file).length : Int)] =
            winAcks (st.window ++
              [(st.seq_id, (List.take MESSAGE_SIZE file).length)]) := by
          rw [winAcks_append, hq]
          rfl
        have hb1 : ∀ s ∈ st.window ++
            [(st.seq_id, (List.take MESSAGE_SIZE file).length)],
            1 ≤ s.2 ∧ s.1 + (s.2 : Int) ≤ st.seq_id +
              ((List.take MESSAGE_SIZE file).length : Int) := by
          intro s hs
          rcases List.mem_append.mp hs with h | h
          · rcases hb s h with ⟨h1, h2⟩
            exact ⟨h1, by omega⟩
          · rcases List.mem_singleton.mp h with rfl
            exact ⟨hlen1, le_refl _⟩
        have hc1 : List.Chain' winLe (st.window ++
            [(st.seq_id, (List.take MESSAGE_SIZE file).length)]) := by
          rw [List.chain'_append]
          refine ⟨hc, List.chain'_singleton _, ?_⟩
          intro x hx y hy
          have hxm : x ∈ st.window := List.mem_of_getLast?_eq_some hx
          have hym : (st.seq_id,
              (List.take MESSAGE_SIZE file).length) = y := by
            simpa using hy
          rcases hb x hxm with ⟨_, h2⟩
          unfold winLe
          have hy1 : y.1 = st.seq_id := by
            rw [← hym]
          rw [hy1]
          exact h2
        have hih := ih (file.drop MESSAGE_SIZE)
          { st with
            window := st.window ++
              [(st.seq_id, (List.take MESSAGE_SIZE file).length)]
            queue := st.queue ++ [st.seq_id +
              ((List.take MESSAGE_SIZE file).length : Int)]
            seq_id := st.seq_id +
              ((List.take MESSAGE_SIZE file).length : Int)
            total_bytes := st.total_bytes +
              (SEQ_ID_SIZE + (List.take MESSAGE_SIZE file).length) }
          hq1 hb1 hc1
        rcases hih with ⟨g1, g2, g3, g4, g5, g6, g7, g8, g9, g10⟩
        dsimp only at g4 g5 g6 g7 g10
        have hlw : (st.window ++
            [(st.seq_id, (List.take MESSAGE_SIZE file).length)]).length =
            st.window.length + 1 := by
          simp
        have hcc : chunkCount file =
            1 + chunkCount (file.drop MESSAGE_SIZE) := by
          rw [chunkCount, if_neg hfile]
        refine ⟨g1, g2, g3, by omega, by omega, ?_, ?_, ?_, ?_, by omega⟩
        · intro hcap hd
          exact g6 (by omega) hd
        · exact le_trans (by omega) g7
        · intro hw
          exfalso
          have := congrArg List.length hw
          omega
        · rcases g9 with h | h
          · exact Or.inl h
          · exact Or.inr h
    · rw [if_neg hg]
      dsimp only
      refine ⟨hq, hb, hc, by omega, rfl, ?_, le_refl _, fun _ => Or.inl rfl,
        Or.inl rfl, le_refl _⟩
      intro hcap hd
      have hnl : ¬ st.window.length < Fw.WINDOW_SIZE := by
        intro hlt
        exact hg ⟨hlt, hd⟩
      exact Or.inl ⟨hd, by omega⟩


theorem fw_fillAux_noop (cap : Nat) (file : List Nat) (st : Fw.St)
    (hd : st.curr_state ≠ Fw.State.SENDING_DATA) :
    Fw.fillAux cap file st = (file, st) := by
  cases cap with
  | zero => rfl
  | succ cap =>
    rw [Fw.fillAux]
    rw [if_neg (by rintro ⟨_, h⟩; exact hd h)]

theorem fw_ackRemove_head (a : Int) (l : Nat) (rest : List (Int × Nat))
    (hl : 1 ≤ l) (hch : List.Chain' winLe ((a, l) :: rest)) :
    Fw.ackRemove (a + (l : Int)) ((a, l) :: rest) = rest := by
  unfold Fw.ackRemove
  rw [List.dropWhile_cons_of_pos (by simp; omega)]
  cases rest with
  | nil => rfl
  | cons b brest =>
    have hr : winLe (a, l) b := (List.chain'_cons.mp hch).1
    unfold winLe at hr
    rw [List.dropWhile_cons_of_neg (by simp; omega)]

theorem fw_fillAux_succ_ne_nil (cap : Nat) (file : List Nat) (st : Fw.St)
    (hg : st.window.length < Fw.WINDOW_SIZE)
    (hd : st.curr_state = Fw.State.SENDING_DATA) (hf : file ≠ []) :
    (Fw.fillAux (cap + 1) file st).2.window ≠ [] := by
  rw [Fw.fillAux, if_pos ⟨hg, hd⟩]
  dsimp only
  have hch : ¬ List.take MESSAGE_SIZE file = [] := by
    rw [List.take_eq_nil_iff]
    push_neg
    exact ⟨by norm_num [MESSAGE_SIZE, PACKET_SIZE, SEQ_ID_SIZE], hf⟩
  rw [if_neg hch]
  rcases fw_fillAux_append_total cap (file.drop MESSAGE_SIZE)
    { st with
      window := st.window ++
        [(st.seq_id, (List.take MESSAGE_SIZE file).length)]
      queue := st.queue ++ [st.seq_id +
        ((List.take MESSAGE_SIZE file).length : Int)]
      seq_id := st.seq_id + ((List.take MESSAGE_SIZE file).length : Int)
      total_bytes := st.total_bytes +
        (SEQ_ID_SIZE + (List.take MESSAGE_SIZE file).length) }
    with ⟨new, hp, _⟩
  rw [hp]
  dsimp only
  simp



theorem fw_iter_spec (file : List Nat) (st : Fw.St) (hInv : FwInv file st) :
    (st.curr_state = Fw.State.SENDING_FINACK ∧
      Fw.iter file st = (file,
        { st with
          curr_state := Fw.State.COMPLETE
          tick := st.tick + 1
          end_tick := st.tick + 1 }, true)) ∨
    ((Fw.iter file st).2.2 = false ∧
      FwInv (Fw.iter file st).1 (Fw.iter file st).2.1 ∧
      chunkCount (Fw.iter file st).1 +
        (Fw.iter file st).2.1.window.length +
        fwRank (Fw.iter file st).2.1.curr_state <
        chunkCount file + st.window.length + fwRank st.curr_state ∧
      st.total_bytes ≤ (Fw.iter file st).2.1.total_bytes) := by
  rcases hInv with ⟨hq, hb, hc, hlen, hpay, hphase⟩
  cases hcs : st.curr_state with
  | COMPLETE =>
    rw [hcs] at hphase
    exact absurd hphase (by simp)
  | SENDING_FINACK =>
    rw [hcs] at hphase
    rcases hphase with ⟨hfile, hwin⟩
    left
    refine ⟨rfl, ?_⟩
    unfold Fw.iter Fw.fill
    rw [fw_fillAux_noop _ _ _ (by rw [hcs]; simp)]
    dsimp only
    have hqe : st.queue = [] := by
      rw [hq, hwin]
      rfl
    rw [hqe]
    dsimp only
    rw [if_pos hcs]
  | SENDING_DATA =>
    rw [hcs] at hphase hpay
    right
    have hcap : st.window.length +
        (Fw.WINDOW_SIZE - st.window.length) = Fw.WINDOW_SIZE := by
      omega
    obtain ⟨file', st', hfe⟩ : ∃ f s,
        Fw.fillAux (Fw.WINDOW_SIZE - st.window.length) file st = (f, s) :=
      ⟨_, _, rfl⟩
    have hspec := fw_fillAux_spec (Fw.WINDOW_SIZE - st.window.length)
      file st hq hb hc
    rw [hfe] at hspec
    dsimp only at hspec
    rcases hspec with ⟨g1, g2, g3, g4, g5, g6, g7, g8, g9, g10⟩
    have hd6 := g6 hcap hcs
    obtain ⟨new, hpw, hpt⟩ := fw_fillAux_append_total
      (Fw.WINDOW_SIZE - st.window.length) file st
    rw [hfe] at hpw hpt
    dsimp only at hpw hpt
    have hT : 0 < st'.total_bytes ∨ (file' = file ∧ file ≠ []) := by
      rcases hpay with h | ⟨_, hfne⟩
      · exact Or.inl (lt_of_lt_of_le h g7)
      · by_cases hchg : st'.window = st.window
        · rcases g8 hchg with hpair | hnil
          · have hf' : file' = file := by
              have h2 := congrArg Prod.fst hpair
              simpa using h2
            exact Or.inr ⟨hf', hfne⟩
          · exact absurd hnil hfne
        · have hnew : new ≠ [] := by
            intro hn
            rw [hn, List.append_nil] at hpw
            exact hchg hpw
          obtain ⟨x, xs, hx⟩ : ∃ x xs, new = x :: xs := by
            cases hn : new with
            | nil => exact absurd hn hnew
            | cons x xs => exact ⟨x, xs, rfl⟩
          have hS : SEQ_ID_SIZE = 4 := rfl
          rw [hx] at hpt
          simp only [List.map_cons, List.sum_cons] at hpt
          omega
    have hwne : st'.window ≠ [] := by
      rcases hd6 with ⟨_, hlenW⟩ | ⟨hsE, hfileE⟩
      · intro hnil
        rw [hnil] at hlenW
        simp [Fw.WINDOW_SIZE] at hlenW
      · by_cases hwnil : st.window = []
        · have hf : file ≠ [] := hphase hwnil
          have hcap1 : Fw.WINDOW_SIZE - st.window.length = 99 + 1 := by
            rw [hwnil]
            rfl
          have hne := fw_fillAux_succ_ne_nil 99 file st
            (by rw [hwnil]; simp [Fw.WINDOW_SIZE]) hcs hf
          rw [← hcap1, hfe] at hne
          simpa using hne
        · intro hnil
          have h1 : 0 < st.window.length := List.length_pos.mpr hwnil
          rw [hnil] at g10
          simp only [List.length_nil] at g10
          omega
    obtain ⟨⟨a, l⟩, wrest, hwcons⟩ : ∃ x xs, st'.window = x :: xs := by
      cases hw : st'.window with
      | nil => exact absurd hw hwne
      | cons x xs => exact ⟨x, xs, rfl⟩
    have hqcons : st'.queue = (a + (l : Int)) :: winAcks wrest := by
      rw [g1, hwcons]
      rfl
    have hbl : 1 ≤ l :=
      (g2 (a, l) (by rw [hwcons]; exact List.mem_cons_self _ _)).1
    have hch2 : List.Chain' winLe ((a, l) :: wrest) := by
      rw [← hwcons]
      exact g3
    have hrem : Fw.ackRemove (a + (l : Int)) st'.window = wrest := by
      rw [hwcons]
      exact fw_ackRemove_head a l wrest hbl hch2
    have hlwr : wrest.length + 1 = st'.window.length := by
      rw [hwcons]
      simp
    unfold Fw.iter Fw.fill
    rw [hfe]
    dsimp only
    rw [hqcons]
    dsimp only
    rw [hrem]
    rcases hd6 with ⟨hsD, hlenW⟩ | ⟨hsE, hfileE⟩
    · rw [if_neg (by rw [hsD]; simp)]
      dsimp only
      have h100 : Fw.WINDOW_SIZE = 100 := rfl
      refine ⟨rfl, ?_, ?_, g7⟩
      · unfold FwInv
        dsimp only
        refine ⟨rfl, ?_, ?_, ?_, ?_, ?_⟩
        · intro s hs
          exact g2 s (by rw [hwcons]; exact List.mem_cons_of_mem _ hs)
        · exact (List.chain'_cons'.mp hch2).2
        · omega
        · rw [hsD]
          rcases hT with h | ⟨hfeq, hfne⟩
          · exact Or.inl h
          · exact Or.inr ⟨rfl, by rw [hfeq]; exact hfne⟩
        · rw [hsD]
          intro hwr
          exfalso
          rw [hwr] at hlwr
          simp only [List.length_nil] at hlwr
          omega
      · rw [hsD]
        dsimp [fwRank]
        omega
    · by_cases hwr : wrest = []
      · rw [if_pos (Or.inl ⟨hsE, hwr⟩)]
        dsimp only
        have htot : 0 < st'.total_bytes := by
          rcases hT with h | ⟨hfeq, hfne⟩
          · exact h
          · rw [hfeq] at hfileE
            exact absurd hfileE hfne
        refine ⟨rfl, ?_, ?_, g7⟩
        · unfold FwInv
          dsimp only
          refine ⟨rfl, ?_, ?_, ?_, Or.inl htot, ⟨hfileE, hwr⟩⟩
          · intro s hs
            exact g2 s (by rw [hwcons]; exact List.mem_cons_of_mem _ hs)
          · exact (List.chain'_cons'.mp hch2).2
          · omega
        · rw [hfileE]
          dsimp [fwRank]
          rw [chunkCount_nil]
          omega
      · rw [if_neg (by rw [hsE]; simp [hwr])]
        dsimp only
        have htot : 0 < st'.total_bytes := by
          rcases hT with h | ⟨hfeq, hfne⟩
          · exact h
          · rw [hfeq] at hfileE
            exact absurd hfileE hfne
        refine ⟨rfl, ?_, ?_, g7⟩
        · unfold FwInv
          dsimp only
          rw [hsE]
          refine ⟨rfl, ?_, ?_, ?_, Or.inl htot, ⟨hfileE, hwr⟩⟩
          · intro s hs
            exact g2 s (by rw [hwcons]; exact List.mem_cons_of_mem _ hs)
          · exact (List.chain'_cons'.mp hch2).2
          · omega
        · rw [hfileE, hsE]
          dsimp [fwRank]
          rw [chunkCount_nil]
          omega
  | SENDING_EOF =>
    rw [hcs] at hphase hpay
    rcases hphase with ⟨hfile, hwin⟩
    right
    obtain ⟨⟨a, l⟩, wrest, hwcons⟩ : ∃ x xs, st.window = x :: xs := by
      cases hw : st.window with
      | nil => exact absurd hw hwin
      | cons x xs => exact ⟨x, xs, rfl⟩
    have hqcons : st.queue = (a + (l : Int)) :: winAcks wrest := by
      rw [hq, hwcons]
      rfl
    have hbl : 1 ≤ l :=
      (hb (a, l) (by rw [hwcons]; exact List.mem_cons_self _ _)).1
    have hch2 : List.Chain' winLe ((a, l) :: wrest) := by
      rw [← hwcons]
      exact hc
    have hrem : Fw.ackRemove (a + (l : Int)) st.window = wrest := by
      rw [hwcons]
      exact fw_ackRemove_head a l wrest hbl hch2
    have htot : 0 < st.total_bytes := by
      rcases hpay with h | ⟨hd, _⟩
      · exact h
      · exact absurd hd (by simp)
    unfold Fw.iter Fw.fill
    rw [fw_fillAux_noop _ _ _ (by rw [hcs]; simp)]
    dsimp only
    rw [hqcons]
    dsimp only
    rw [hrem, hcs]
    by_cases hwr : wrest = []
    · rw [if_pos (Or.inl ⟨rfl, hwr⟩)]
      dsimp only
      refine ⟨rfl, ?_, ?_, le_refl _⟩
      · unfold FwInv
        dsimp only
        refine ⟨rfl, ?_, ?_, ?_, Or.inl htot, ?_⟩
        · intro s hs
          exact hb s (by rw [hwcons]; exact List.mem_cons_of_mem _ hs)
        · exact (List.chain'_cons'.mp hch2).2
        · have : wrest.length + 1 = st.window.length := by
            rw [hwcons]
            simp
          omega
        · exact ⟨hfile, hwr⟩
      · rw [hwcons]
        simp [fwRank]
        omega
    · rw [if_neg (by simp [hwr])]
      dsimp only
      refine ⟨rfl, ?_, ?_, le_refl _⟩
      · unfold FwInv
        dsimp only
        refine ⟨rfl, ?_, ?_, ?_, Or.inl htot, ⟨hfile, hwr⟩⟩
        · intro s hs
          exact hb s (by rw [hwcons]; exact List.mem_cons_of_mem _ hs)
        · exact (List.chain'_cons'.mp hch2).2
        · have : wrest.length + 1 = st.window.length := by
            rw [hwcons]
            simp
          omega
      · rw [hwcons]
        simp [fwRank]



theorem fw_run_completes : ∀ (m : Nat) (file : List Nat) (st : Fw.St),
    chunkCount file + st.window.length + fwRank st.curr_state ≤ m →
    FwInv file st →
    ∃ final, Fw.run (m + 1) file st = some final ∧
      final.curr_state = Fw.State.COMPLETE ∧
      0 < final.total_bytes ∧ 0 < final.end_tick := by
  intro m
  induction m with
  | zero =>
    intro file st hm hInv
    exfalso
    rcases hInv with ⟨_, _, _, _, _, hphase⟩
    cases hcs : st.curr_state with
    | COMPLETE =>
      rw [hcs] at hphase
      exact hphase
    | SENDING_DATA =>
      rw [hcs] at hm
      dsimp [fwRank] at hm
      omega
    | SENDING_EOF =>
      rw [hcs] at hm
      dsimp [fwRank] at hm
      omega
    | SENDING_FINACK =>
      rw [hcs] at hm
      dsimp [fwRank] at hm
      omega
  | succ m ih =>
    intro file st hm hInv
    rcases fw_iter_spec file st hInv with ⟨hfin, hiter⟩ |
      ⟨hex, hInv2, hlt, _⟩
    · have htotpos : 0 < st.total_bytes := by
        rcases hInv with ⟨_, _, _, _, hpay, _⟩
        rcases hpay with h | ⟨hd, _⟩
        · exact h
        · rw [hfin] at hd
          exact absurd hd (by simp)
      refine ⟨{ st with
        curr_state := Fw.State.COMPLETE
        tick := st.tick + 1
        end_tick := st.tick + 1 }, ?_, rfl, htotpos, Nat.succ_pos _⟩
      rw [Fw.run, hiter]
      rfl
    · obtain ⟨final, hrun, hcomp, htotf, hend⟩ := ih (Fw.iter file st).1
        (Fw.iter file st).2.1 (by omega) hInv2
      refine ⟨final, ?_, hcomp, htotf, hend⟩
      rw [Fw.run]
      simp only [hex]
      exact hrun


theorem chunkCount_le_len_aux : ∀ (n : Nat) (file : List Nat),
    file.length ≤ n → chunkCount file ≤ file.length := by
  intro n
  induction n with
  | zero =>
    intro file h
    have hnil : file = [] := List.length_eq_zero.mp (Nat.le_zero.mp h)
    subst hnil
    rw [chunkCount_nil]
    exact Nat.zero_le _
  | succ n ih =>
    intro file h
    by_cases hne : file = []
    · subst hne
      rw [chunkCount_nil]
      exact Nat.zero_le _
    · rw [chunkCount, if_neg hne]
      have hpos : 0 < file.length := List.length_pos.mpr hne
      have hm : MESSAGE_SIZE = 1020 := rfl
      have ih2 := ih (file.drop MESSAGE_SIZE) (by
        rw [hm]
        simp only [List.length_drop]
        omega)
      rw [hm] at ih2 ⊢
      simp only [List.length_drop] at ih2
      omega

theorem chunkCount_le_length (file : List Nat) :
    chunkCount file ≤ file.length :=
  chunkCount_le_len_aux file.length file (le_refl _)

theorem chunkCount_pos (file : List Nat) (hne : file ≠ []) :
    0 < chunkCount file := by
  rw [chunkCount, if_neg hne]
  omega

theorem fwInv_init (file : List Nat) (hne : file ≠ []) :
    FwInv file Fw.init := by
  refine ⟨rfl, ?_, List.chain'_nil, ?_, Or.inr ⟨rfl, hne⟩, ?_⟩
  · intro s hs
    exact absurd hs (List.not_mem_nil s)
  · norm_num [Fw.init, Fw.WINDOW_SIZE]
  · exact fun _ => hne

/-- C9 (counterexample). At the empty file the claim fails: the
stop-and-wait sender does terminate against the ideal peer, but with
`total_bytes = 0` its throughput is 0, not positive; and the
fixed-window sender never reaches COMPLETE at all (it spins in
SENDING_EOF with an empty window, here shown for 5 iterations of
fuel). -/
theorem c9_empty_file_counterexample :
    (Saw.run [] Saw.init).curr_state = Saw.State.COMPLETE ∧
    ¬ 0 < Saw.throughput (Saw.run [] Saw.init) ∧
    Fw.run 5 [] Fw.init = none := by
  have h := saw_run_data_eq 0 [] Saw.init (by simp) rfl
  rw [h]
  refine ⟨rfl, ?_, by decide⟩
  norm_num [Saw.throughput, Saw.init, chunkCount_nil]

/-- C9 (amended). For every NONEMPTY input file, against the lossless
zero-delay peer that ACKs each data segment cumulatively, both the
stop-and-wait sender and the fixed-window sender terminate: the whole
file is segmented and sent, the state reaches COMPLETE through the
EOF/FINACK phase, and the final throughput metric is positive.  (The
original claim said "for every input file"; it fails at the empty
file.) -/
theorem c9_closed_loop_terminates (file : List Nat) (hne : file ≠ []) :
    ((Saw.run file Saw.init).curr_state = Saw.State.COMPLETE ∧
      0 < Saw.throughput (Saw.run file Saw.init)) ∧
    ∃ final, Fw.run (file.length + 4) file Fw.init = some final ∧
      final.curr_state = Fw.State.COMPLETE ∧
      0 < Fw.throughput final := by
  constructor
  · rw [saw_run_data_eq file.length file Saw.init (le_refl _) rfl]
    have hcc : 0 < chunkCount file := chunkCount_pos file hne
    refine ⟨rfl, ?_⟩
    dsimp only [Saw.throughput, Saw.init]
    rw [if_pos (by omega)]
    have hP : PACKET_SIZE = 1024 := rfl
    apply div_pos
    · push_cast
      rw [hP]
      push_cast
      positivity
    · push_cast
      positivity
  · have hmeas : chunkCount file + Fw.init.window.length +
        fwRank Fw.init.curr_state ≤ file.length + 3 := by
      have h1 := chunkCount_le_length file
      have h2 : Fw.init.window.length = 0 := rfl
      have h3 : fwRank Fw.init.curr_state = 3 := rfl
      omega
    obtain ⟨final, hrun, hcomp, htot, hend⟩ :=
      fw_run_completes (file.length + 3) file Fw.init hmeas
        (fwInv_init file hne)
    refine ⟨final, hrun, hcomp, ?_⟩
    dsimp only [Fw.throughput]
    rw [if_pos hend]
    apply div_pos
    · exact_mod_cast htot
    · exact_mod_cast hend

/-- C9 (witness). The amended claim at the one-byte file. -/
theorem c9_closed_loop_terminates_witness :
    ((Saw.run oneByteFile Saw.init).curr_state = Saw.State.COMPLETE ∧
      0 < Saw.throughput (Saw.run oneByteFile Saw.init)) ∧
    ∃ final,
      Fw.run (oneByteFile.length + 4) oneByteFile Fw.init = some final ∧
      final.curr_state = Fw.State.COMPLETE ∧
      0 < Fw.throughput final :=
  c9_closed_loop_terminates oneByteFile (by decide)


end Proto
